import Mathlib

/-!
Verification of the Python AST extractor of repository-context-protocol
(src/internal/ast/python/extractor.py) against its specification.

The extractor is embedded shallowly: strings are `List Char` (wrapped into
`String` at the boundary), the Python `ast` node kinds that the extractor
visits are an inductive type, and the `PythonASTExtractor` visitor state is
an explicit record threaded through the traversal.  Go-style brace
characters inside string literals are written with \x7b and \x7d escapes.
-/

namespace PyExtract

/-- Whitespace characters stripped by Python str.strip (ASCII subset). -/
def isPySpace (c : Char) : Bool :=
  c == ' ' || c == '\t' || c == '\n' || c == '\r' || c == '\x0b' || c == '\x0c'

/-- Python str.strip on a character list. -/
def pyStrip (l : List Char) : List Char :=
  ((l.dropWhile isPySpace).reverse.dropWhile isPySpace).reverse

theorem length_dropWhile_le' {α : Type} (p : α → Bool) (l : List α) :
    (l.dropWhile p).length ≤ l.length := by
  induction l with
  | nil => simp
  | cons a as ih =>
    by_cases h : p a
    · simp [List.dropWhile, h]
      omega
    · simp [List.dropWhile, h]

theorem pyStrip_length_le (l : List Char) : (pyStrip l).length ≤ l.length := by
  unfold pyStrip
  calc ((l.dropWhile isPySpace).reverse.dropWhile isPySpace).reverse.length
      = ((l.dropWhile isPySpace).reverse.dropWhile isPySpace).length := by
        rw [List.length_reverse]
    _ ≤ (l.dropWhile isPySpace).reverse.length := length_dropWhile_le' _ _
    _ = (l.dropWhile isPySpace).length := by rw [List.length_reverse]
    _ ≤ l.length := length_dropWhile_le' _ _

/-- If neither end of the list is Python whitespace, str.strip is the identity. -/
theorem pyStrip_eq_self (l : List Char)
    (h1 : ∀ c, l.head? = some c → isPySpace c = false)
    (h2 : ∀ c, l.getLast? = some c → isPySpace c = false) :
    pyStrip l = l := by
  unfold pyStrip
  have hd : l.dropWhile isPySpace = l := by
    cases l with
    | nil => rfl
    | cons a as =>
      have := h1 a rfl
      simp [List.dropWhile, this]
  rw [hd]
  have hrev : l.reverse.dropWhile isPySpace = l.reverse := by
    cases hr : l.reverse with
    | nil => rfl
    | cons a as =>
      have hlast : l.getLast? = some a := by
        rw [← List.head?_reverse, hr]
        rfl
      have := h2 a hlast
      simp [List.dropWhile, this]
  rw [hrev, List.reverse_reverse]

/-- Python str.isupper: at least one cased (alphabetic) character and no
lowercase character (ASCII reading, as used for constant detection). -/
def pyIsUpper (l : List Char) : Bool :=
  l.any (fun c => c.isAlpha) && l.all (fun c => !c.isLower)

/-- The fixed Python-to-Go base-type lookup table of _normalize_type,
in its source (insertion) order; the order matters for the prefix
fallback. -/
def typeMapping : List (String × String) := [
  ("int", "int"), ("float", "float64"), ("str", "string"), ("bool", "bool"),
  ("bytes", "[]byte"), ("bytearray", "[]byte"), ("complex", "complex128"),
  ("list", "[]interface\x7b\x7d"), ("dict", "map[string]interface\x7b\x7d"),
  ("set", "map[interface\x7b\x7d]struct\x7b\x7d"),
  ("frozenset", "map[interface\x7b\x7d]struct\x7b\x7d"),
  ("tuple", "[]interface\x7b\x7d"),
  ("List", "[]interface\x7b\x7d"), ("Dict", "map[string]interface\x7b\x7d"),
  ("Set", "map[interface\x7b\x7d]struct\x7b\x7d"),
  ("FrozenSet", "map[interface\x7b\x7d]struct\x7b\x7d"),
  ("Tuple", "[]interface\x7b\x7d"), ("Optional", "*interface\x7b\x7d"),
  ("Union", "interface\x7b\x7d"), ("Any", "interface\x7b\x7d"),
  ("Callable", "func()"),
  ("Iterable", "[]interface\x7b\x7d"), ("Iterator", "[]interface\x7b\x7d"),
  ("Generator", "[]interface\x7b\x7d"), ("Coroutine", "interface\x7b\x7d"),
  ("Awaitable", "interface\x7b\x7d"),
  ("object", "interface\x7b\x7d"), ("type", "reflect.Type"),
  ("slice", "[]interface\x7b\x7d"), ("range", "[]int"),
  ("enumerate", "[]interface\x7b\x7d"), ("zip", "[]interface\x7b\x7d"),
  ("filter", "[]interface\x7b\x7d"), ("map", "[]interface\x7b\x7d")]

/-- First value in an association list whose key equals t. -/
def lookupMapGo : List (String × String) → List Char → Option (List Char)
  | [], _ => none
  | (k, v) :: rest, t => if k.data = t then some v.data else lookupMapGo rest t

/-- Exact dictionary lookup (`type_str in type_mapping`). -/
def lookupMapL (t : List Char) : Option (List Char) := lookupMapGo typeMapping t

/-- Is k a prefix of t (Python startswith)? -/
def isPrefixL : List Char → List Char → Bool
  | [], _ => true
  | _ :: _, [] => false
  | a :: as, b :: bs => a == b && isPrefixL as bs

/-- Python str.startswith on Lean strings. -/
def pyStartsWith (s pre : String) : Bool := isPrefixL pre.data s.data

/-- First value in an association list whose key is a prefix of t. -/
def findPrefixGo : List (String × String) → List Char → Option (List Char)
  | [], _ => none
  | (k, v) :: rest, t => if isPrefixL k.data t then some v.data else findPrefixGo rest t

/-- First table entry whose key is a prefix of t: the backwards-compatibility
prefix fallback of _normalize_type (`for python_type, go_type in
type_mapping.items(): if type_str.startswith(python_type): ...`). -/
def findPrefixMapL (t : List Char) : Option (List Char) :=
  findPrefixGo typeMapping t

/-- _parse_type_parameters: the character loop, carrying the current
parameter and the bracket depth (a Python int, which may go negative). -/
def parseParamsAux : List Char → List Char → Int → List (List Char)
  | [], cur, _ => if pyStrip cur = [] then [] else [pyStrip cur]
  | c :: cs, cur, d =>
    if c = '[' then parseParamsAux cs (cur ++ [c]) (d + 1)
    else if c = ']' then parseParamsAux cs (cur ++ [c]) (d - 1)
    else if c = ',' ∧ d = 0 then pyStrip cur :: parseParamsAux cs [] d
    else parseParamsAux cs (cur ++ [c]) d

/-- _parse_type_parameters entry point. -/
def parseTypeParametersL (s : List Char) : List (List Char) :=
  parseParamsAux s [] 0

theorem parseParamsAux_mem_length :
    ∀ (cs cur : List Char) (d : Int) (p : List Char),
      p ∈ parseParamsAux cs cur d → p.length ≤ cur.length + cs.length := by
  intro cs
  induction cs with
  | nil =>
    intro cur d p hp
    unfold parseParamsAux at hp
    split at hp
    · simp at hp
    · simp at hp
      subst hp
      have := pyStrip_length_le cur
      simpa using this
  | cons c cs ih =>
    intro cur d p hp
    unfold parseParamsAux at hp
    split at hp
    · have := ih (cur ++ [c]) (d + 1) p hp
      simp at this ⊢
      omega
    · split at hp
      · have := ih (cur ++ [c]) (d - 1) p hp
        simp at this ⊢
        omega
      · split at hp
        · rcases List.mem_cons.mp hp with h | h
          · subst h
            have := pyStrip_length_le cur
            simp
            omega
          · have := ih [] d p h
            simp at this ⊢
            omega
        · have := ih (cur ++ [c]) d p hp
          simp at this ⊢
          omega

theorem parseTypeParametersL_mem_length {s p : List Char}
    (hp : p ∈ parseTypeParametersL s) : p.length ≤ s.length := by
  have := parseParamsAux_mem_length s [] 0 p hp
  simpa using this

/-- The number of commas in s that occur at bracket depth zero, starting
from depth d (mirrors the depth bookkeeping of _parse_type_parameters). -/
def countD0 : List Char → Int → Nat
  | [], _ => 0
  | c :: cs, d =>
    if c = '[' then countD0 cs (d + 1)
    else if c = ']' then countD0 cs (d - 1)
    else if c = ',' ∧ d = 0 then countD0 cs d + 1
    else countD0 cs d

theorem parseParamsAux_length_bounds :
    ∀ (cs cur : List Char) (d : Int),
      countD0 cs d ≤ (parseParamsAux cs cur d).length ∧
      (parseParamsAux cs cur d).length ≤ countD0 cs d + 1 := by
  intro cs
  induction cs with
  | nil =>
    intro cur d
    unfold parseParamsAux countD0
    split <;> simp
  | cons c cs ih =>
    intro cur d
    unfold parseParamsAux countD0
    split
    · exact ih (cur ++ [c]) (d + 1)
    · split
      · exact ih (cur ++ [c]) (d - 1)
      · split
        · have := ih [] d
          constructor
          · simp
            omega
          · simp
            omega
        · exact ih (cur ++ [c]) d

/-- Index of the first '[' in t (Python str.find; used only when present). -/
def bracketStart (t : List Char) : Nat := t.findIdx (fun c => c == '[')

/-- Index of the last ']' in t (Python str.rfind; used only when present). -/
def bracketEnd (t : List Char) : Nat :=
  t.length - 1 - t.reverse.findIdx (fun c => c == ']')

/-- base_type = type_str[:bracket_start].strip() in _parse_generic_type. -/
def genericBase (t : List Char) : List Char := pyStrip (t.take (bracketStart t))

/-- params_str = type_str[bracket_start+1:bracket_end].strip(). -/
def genericInner (t : List Char) : List Char :=
  pyStrip ((t.drop (bracketStart t + 1)).take (bracketEnd t - (bracketStart t + 1)))

theorem genericInner_length (t : List Char) :
    (genericInner t).length ≤ t.length - 2 := by
  have h1 := pyStrip_length_le
    ((t.drop (bracketStart t + 1)).take (bracketEnd t - (bracketStart t + 1)))
  have h2 : ((t.drop (bracketStart t + 1)).take
      (bracketEnd t - (bracketStart t + 1))).length
      ≤ bracketEnd t - (bracketStart t + 1) := by
    rw [List.length_take]
    exact Nat.min_le_left _ _
  have h3 : bracketEnd t ≤ t.length - 1 := by
    unfold bracketEnd
    omega
  unfold genericInner
  omega

theorem genericParam_length {t p : List Char}
    (hp : p ∈ parseTypeParametersL (genericInner t)) : p.length ≤ t.length - 2 :=
  le_trans (parseTypeParametersL_mem_length hp) (genericInner_length t)

theorem two_le_length_of_brackets {t : List Char} (h1 : '[' ∈ t) (h2 : ']' ∈ t) :
    2 ≤ t.length := by
  cases t with
  | nil => simp at h1
  | cons a rest =>
    cases rest with
    | nil =>
      simp at h1 h2
      rw [← h1] at h2
      exact absurd h2 (by decide)
    | cons b r2 => simp

mutual
/-- _normalize_type, with explicit recursion fuel; normGo_congr shows the
fuel is irrelevant once it exceeds the input length. -/
def normGo : Nat → List Char → List Char
  | 0, l => l
  | fuel + 1, l =>
    if l = "None".data ∨ l = "NoneType".data then "nil".data
    else if l = [] ∨ pyStrip l = [] then "interface\x7b\x7d".data
    else
      match lookupMapL (pyStrip l) with
      | some g => g
      | none =>
        if '[' ∈ pyStrip l ∧ ']' ∈ pyStrip l then parseGenericGo fuel (pyStrip l)
        else if (pyStrip l).head? = some '"' ∧ (pyStrip l).getLast? = some '"' then
          normGo fuel (((pyStrip l).drop 1).dropLast)
        else if (pyStrip l).head? = some '\'' ∧ (pyStrip l).getLast? = some '\'' then
          normGo fuel (((pyStrip l).drop 1).dropLast)
        else
          match findPrefixMapL (pyStrip l) with
          | some g => g
          | none => pyStrip l

/-- _parse_generic_type, with the same fuel discipline. -/
def parseGenericGo : Nat → List Char → List Char
  | 0, t => t
  | fuel + 1, t =>
    if ¬ ('[' ∈ t) ∨ ¬ (']' ∈ t) then t
    else if genericInner t = [] then (lookupMapL (genericBase t)).getD t
    else if genericBase t = "List".data ∨ genericBase t = "list".data then
      match parseTypeParametersL (genericInner t) with
      | p :: _ => "[]".data ++ normGo fuel p
      | [] => "[]interface\x7b\x7d".data
    else if genericBase t = "Dict".data ∨ genericBase t = "dict".data then
      match parseTypeParametersL (genericInner t) with
      | k :: v :: _ => "map[".data ++ normGo fuel k ++ "]".data ++ normGo fuel v
      | [k] => "map[".data ++ normGo fuel k ++ "]interface\x7b\x7d".data
      | [] => "map[string]interface\x7b\x7d".data
    else if genericBase t = "Set".data ∨ genericBase t = "set".data then
      match parseTypeParametersL (genericInner t) with
      | p :: _ => "map[".data ++ normGo fuel p ++ "]struct\x7b\x7d".data
      | [] => "map[interface\x7b\x7d]struct\x7b\x7d".data
    else if genericBase t = "FrozenSet".data ∨ genericBase t = "frozenset".data then
      match parseTypeParametersL (genericInner t) with
      | p :: _ => "map[".data ++ normGo fuel p ++ "]struct\x7b\x7d".data
      | [] => "map[interface\x7b\x7d]struct\x7b\x7d".data
    else if genericBase t = "Tuple".data ∨ genericBase t = "tuple".data then
      match parseTypeParametersL (genericInner t) with
      | [p] => "[]".data ++ normGo fuel p
      | [] => "[]interface\x7b\x7d".data
      | _ :: _ :: _ => "[]interface\x7b\x7d".data
    else if genericBase t = "Optional".data then
      match parseTypeParametersL (genericInner t) with
      | p :: _ =>
        if normGo fuel p = "interface\x7b\x7d".data then "*interface\x7b\x7d".data
        else if (normGo fuel p).head? = some '*' then normGo fuel p
        else "*".data ++ normGo fuel p
      | [] => "*interface\x7b\x7d".data
    else if genericBase t = "Union".data then "interface\x7b\x7d".data
    else if genericBase t = "Callable".data then "func()".data
    else (lookupMapL (genericBase t)).getD t
end

/-- _normalize_type with fuel exceeding the input length. -/
def normalizeTypeL (l : List Char) : List Char := normGo (l.length + 1) l

/-- _normalize_type on Lean strings. -/
def normalizeType (s : String) : String := ⟨normalizeTypeL s.data⟩

/-- The fuel threaded through normGo and parseGenericGo is irrelevant once it
dominates the input length, so normalizeTypeL is the function computed by
_normalize_type. -/
theorem normGo_congr :
    ∀ f1 : Nat,
      (∀ f2 l, l.length < f1 → l.length < f2 → normGo f1 l = normGo f2 l) ∧
      (∀ f2 t, t.length ≤ f1 → t.length ≤ f2 →
        parseGenericGo f1 t = parseGenericGo f2 t) := by
  intro f1
  induction f1 with
  | zero =>
    constructor
    · intro f2 l h1 _
      exact absurd h1 (Nat.not_lt_zero _)
    · intro f2 t h1 _
      have ht : t = [] := List.eq_nil_of_length_eq_zero (Nat.le_zero.mp h1)
      subst ht
      cases f2 with
      | zero => rfl
      | succ g => simp [parseGenericGo]
  | succ f ih =>
    constructor
    · intro f2 l h1 h2
      cases f2 with
      | zero => exact absurd h2 (Nat.not_lt_zero _)
      | succ f2 =>
        show normGo (f + 1) l = normGo (f2 + 1) l
        by_cases hnone : l = "None".data ∨ l = "NoneType".data
        · simp only [normGo, if_pos hnone]
        · by_cases hempty : l = [] ∨ pyStrip l = []
          · simp only [normGo, if_neg hnone, if_pos hempty]
          · simp only [normGo, if_neg hnone, if_neg hempty]
            have htlen : (pyStrip l).length ≤ l.length := pyStrip_length_le l
            have htpos : 1 ≤ (pyStrip l).length := by
              have hne : pyStrip l ≠ [] := fun hh => hempty (Or.inr hh)
              have := List.length_pos.mpr hne
              omega
            cases hl : lookupMapL (pyStrip l) with
            | some g => simp
            | none =>
              simp only []
              by_cases hbr : '[' ∈ pyStrip l ∧ ']' ∈ pyStrip l
              · simp only [if_pos hbr]
                exact ih.2 f2 (pyStrip l) (by omega) (by omega)
              · simp only [if_neg hbr]
                have hdl : (((pyStrip l).drop 1).dropLast).length
                    = (pyStrip l).length - 1 - 1 := by
                  rw [List.length_dropLast, List.length_drop]
                by_cases hq1 : (pyStrip l).head? = some '"' ∧
                    (pyStrip l).getLast? = some '"'
                · simp only [if_pos hq1]
                  exact ih.1 f2 (((pyStrip l).drop 1).dropLast)
                    (by omega) (by omega)
                · simp only [if_neg hq1]
                  by_cases hq2 : (pyStrip l).head? = some '\'' ∧
                      (pyStrip l).getLast? = some '\''
                  · simp only [if_pos hq2]
                    exact ih.1 f2 (((pyStrip l).drop 1).dropLast)
                      (by omega) (by omega)
                  · simp only [if_neg hq2]
    · intro f2 t h1 h2
      cases f2 with
      | zero =>
        have ht : t = [] := List.eq_nil_of_length_eq_zero (Nat.le_zero.mp h2)
        subst ht
        simp [parseGenericGo]
      | succ f2 =>
        show parseGenericGo (f + 1) t = parseGenericGo (f2 + 1) t
        by_cases hg : ¬ ('[' ∈ t) ∨ ¬ (']' ∈ t)
        · simp only [parseGenericGo, if_pos hg]
        · simp only [parseGenericGo, if_neg hg]
          push_neg at hg
          have ht2 : 2 ≤ t.length := two_le_length_of_brackets hg.1 hg.2
          by_cases hps : genericInner t = []
          · simp only [if_pos hps]
          · simp only [if_neg hps]
            have hkey : ∀ p ∈ parseTypeParametersL (genericInner t),
                normGo f p = normGo f2 p := by
              intro p hp
              have hpl := genericParam_length hp
              exact ih.1 f2 p (by omega) (by omega)
            rcases hpar : parseTypeParametersL (genericInner t) with _ | ⟨p, rest1⟩
            · simp only [hpar]
            · have hmp : p ∈ parseTypeParametersL (genericInner t) := by
                rw [hpar]
                exact List.mem_cons_self _ _
              cases rest1 with
              | nil =>
                simp only [hpar]
                rw [hkey p hmp]
              | cons q rest =>
                have hmq : q ∈ parseTypeParametersL (genericInner t) := by
                  rw [hpar]
                  exact List.mem_cons.mpr (Or.inr (List.mem_cons_self _ _))
                simp only [hpar]
                rw [hkey p hmp, hkey q hmq]

theorem normalizeTypeL_fuel (f : Nat) (l : List Char) (h : l.length < f) :
    normGo f l = normalizeTypeL l :=
  (normGo_congr f).1 (l.length + 1) l h (Nat.lt_succ_self _)

/-- No key of the lookup table starts with a quote character, so a quoted
string never matches exactly. -/
theorem lookupMapL_quote (l : List Char) :
    lookupMapL ('"' :: l) = none := by
  simp [lookupMapL, lookupMapGo, typeMapping]

/-- One application of the fallthrough case of _normalize_type: a stripped
string that hits no earlier rule is returned as is. -/
theorem normalizeTypeL_fallthrough (l : List Char)
    (h1 : ¬ (l = "None".data ∨ l = "NoneType".data))
    (h2 : pyStrip l ≠ [])
    (h3 : lookupMapL (pyStrip l) = none)
    (h4 : ¬ ('[' ∈ pyStrip l ∧ ']' ∈ pyStrip l))
    (h5 : ¬ ((pyStrip l).head? = some '"' ∧ (pyStrip l).getLast? = some '"'))
    (h6 : ¬ ((pyStrip l).head? = some '\'' ∧ (pyStrip l).getLast? = some '\''))
    (h7 : findPrefixMapL (pyStrip l) = none) :
    normalizeTypeL l = pyStrip l := by
  have hne : ¬ (l = [] ∨ pyStrip l = []) := by
    rintro (h | h)
    · exact h2 (by simp [h, pyStrip])
    · exact h2 h
  show normGo (l.length + 1) l = pyStrip l
  simp only [normGo, if_neg h1, if_neg hne, h3, if_neg h4, if_neg h5, if_neg h6, h7]

/-- Quote stripping in _normalize_type: it applies only after the exact-match
and generic-type rules, so for a double-quoted string whose body keeps the
bracket rule from firing, normalization proceeds on the unquoted body. -/
theorem normalizeTypeL_quoted (l : List Char)
    (hbr : ¬ ('[' ∈ l ∧ ']' ∈ l)) :
    normalizeTypeL ('"' :: (l ++ ['"'])) = normalizeTypeL l := by
  have hlen : ('"' :: (l ++ ['"'])).length = l.length + 2 := by
    simp
  have hstrip : pyStrip ('"' :: (l ++ ['"'])) = '"' :: (l ++ ['"']) := by
    apply pyStrip_eq_self
    · intro c hc
      simp at hc
      rw [← hc]
      decide
    · intro c hc
      rw [show ('"' :: (l ++ ['"'])) = ('"' :: l) ++ ['"'] by simp,
        List.getLast?_concat] at hc
      cases hc
      decide
  have hnone : ¬ ('"' :: (l ++ ['"']) = "None".data ∨
      '"' :: (l ++ ['"']) = "NoneType".data) := by
    rintro (h | h) <;> simp [List.cons.injEq] at h
  have hne : ¬ ('"' :: (l ++ ['"']) = [] ∨ pyStrip ('"' :: (l ++ ['"'])) = []) := by
    rintro (h | h)
    · exact List.cons_ne_nil _ _ h
    · rw [hstrip] at h
      exact List.cons_ne_nil _ _ h
  have hbr' : ¬ ('[' ∈ pyStrip ('"' :: (l ++ ['"'])) ∧
      ']' ∈ pyStrip ('"' :: (l ++ ['"']))) := by
    rw [hstrip]
    intro hmem
    apply hbr
    constructor
    · rcases List.mem_cons.mp hmem.1 with h | h
      · exact absurd h (by decide)
      · rcases List.mem_append.mp h with h' | h'
        · exact h'
        · simp at h'
    · rcases List.mem_cons.mp hmem.2 with h | h
      · exact absurd h (by decide)
      · rcases List.mem_append.mp h with h' | h'
        · exact h'
        · simp at h'
  have hq : (pyStrip ('"' :: (l ++ ['"']))).head? = some '"' ∧
      (pyStrip ('"' :: (l ++ ['"']))).getLast? = some '"' := by
    rw [hstrip]
    constructor
    · rfl
    · rw [show ('"' :: (l ++ ['"'])) = ('"' :: l) ++ ['"'] by simp,
        List.getLast?_concat]
  have hlook : lookupMapL (pyStrip ('"' :: (l ++ ['"']))) = none := by
    rw [hstrip]
    exact lookupMapL_quote _
  have hdrop : ((pyStrip ('"' :: (l ++ ['"']))).drop 1).dropLast = l := by
    rw [hstrip]
    simp [List.dropLast_concat]
  show normGo (('"' :: (l ++ ['"'])).length + 1) ('"' :: (l ++ ['"'])) = _
  rw [hlen]
  show normGo (l.length + 2 + 1) ('"' :: (l ++ ['"'])) = _
  simp only [normGo, if_neg hnone, if_neg hne, hlook, if_neg hbr', if_pos hq, hdrop]
  exact normalizeTypeL_fuel (l.length + 2) l (by omega)

/-! ## The Python AST fragment visited by the extractor -/

/-- Python constant literals (ast.Constant) in the modelled fragment. -/
inductive ConstVal where
  | intVal (n : Int)
  | strVal (s : String)
  | boolVal (b : Bool)
  | noneVal
deriving Repr, DecidableEq

/-- Python expressions in the modelled fragment: ast.Name, ast.Attribute,
ast.Call (carrying its source line) and ast.Constant. -/
inductive PyExpr where
  | name (id : String)
  | attr (value : PyExpr) (attrName : String)
  | call (func : PyExpr) (args : List PyExpr) (line : Nat)
  | const (v : ConstVal)
deriving Repr

/-- Python repr of a constant, as ast.unparse prints it (\x27 is the
single-quote character). -/
def reprConst : ConstVal → String
  | .intVal n => toString n
  | .strVal s => "\x27" ++ s ++ "\x27"
  | .boolVal true => "True"
  | .boolVal false => "False"
  | .noneVal => "None"

/-- Comma-join as used by ast.unparse for argument lists. -/
def joinComma : List String → String
  | [] => ""
  | [s] => s
  | s :: rest => s ++ ", " ++ joinComma rest

mutual
/-- ast.unparse on the modelled expression fragment. -/
def unparseExpr : PyExpr → String
  | .name id => id
  | .attr v a => unparseExpr v ++ "." ++ a
  | .call f args _ => unparseExpr f ++ "(" ++ joinComma (unparseList args) ++ ")"
  | .const v => reprConst v

def unparseList : List PyExpr → List String
  | [] => []
  | e :: es => unparseExpr e :: unparseList es
end

/-- A function parameter (ast.arg): name and optional annotation.  The
modelled fragment has no vararg/kwarg/keyword-only parameters. -/
structure PyArg where
  name : String
  ann : Option PyExpr
deriving Repr

/-- Python statements in the modelled fragment.  endLine models
node.end_lineno (which Python may report as None). -/
inductive PyStmt where
  | funcDef (name : String) (args : List PyArg) (defaults : List PyExpr)
      (body : List PyStmt) (decorators : List String) (returns : Option PyExpr)
      (line : Nat) (endLine : Option Nat)
  | classDef (name : String) (bases : List PyExpr) (body : List PyStmt)
      (decorators : List String) (line : Nat) (endLine : Option Nat)
  | assign (targets : List PyExpr) (value : PyExpr) (line : Nat)
  | annAssign (target : PyExpr) (ann : PyExpr) (value : Option PyExpr) (line : Nat)
  | exprStmt (e : PyExpr)
  | ret (e : Option PyExpr)
  | passStmt
  | importStmt (names : List (String × Option String)) (line : Nat)
  | importFrom (moduleName : String) (level : Nat)
      (names : List (String × Option String)) (line : Nat)
deriving Repr

/-- The body of ast.Module. -/
abbrev PyModule := List PyStmt

/-! ## The entity records built by the extractor (§3 of the spec) -/

/-- One entry of a function's raw calls list. -/
structure CallInfo where
  name : String
  line : Nat
  ctype : String
deriving Repr, DecidableEq

structure ParamInfo where
  name : String
  ptype : String
  defaultVal : Option String
deriving Repr, DecidableEq

structure ReturnInfo where
  name : String
  kind : String
deriving Repr, DecidableEq

/-- The function dictionary built by _extract_function (class_name is only
present for methods, modelled with Option). -/
structure FuncInfo where
  name : String
  parameters : List ParamInfo
  returns : List ReturnInfo
  calls : List CallInfo
  called_by : List String
  calls_functions : List String
  start_line : Nat
  end_line : Nat
  decorators : List String
  is_async : Bool
  docstring : String
  is_method : Bool
  class_name : Option String
deriving Repr, DecidableEq

/-- The class dictionary built by visit_ClassDef ("fields" is initialised
empty and never filled by the extractor). -/
structure ClassInfo where
  name : String
  kind : String
  fields : List String
  methods : List FuncInfo
  embedded : List String
  start_line : Nat
  end_line : Nat
  decorators : List String
  docstring : String
deriving Repr, DecidableEq

structure VarInfo where
  name : String
  vtype : String
  line : Nat
  is_exported : Bool
deriving Repr, DecidableEq

/-- aliasName models the "alias" key of import entries. -/
structure ImportInfo where
  path : String
  aliasName : String
  items : List String
  line : Nat
  is_star_import : Bool
deriving Repr, DecidableEq

/-- etype models the "type" key of export entries. -/
structure ExportInfo where
  name : String
  etype : String
  line : Nat
deriving Repr, DecidableEq

/-- The record returned by PythonASTExtractor.extract. -/
structure FileRecord where
  path : String
  language : String
  functions : List FuncInfo
  types : List ClassInfo
  vars : List VarInfo
  constants : List VarInfo
  imports : List ImportInfo
  exports : List ExportInfo
  errors : List String
deriving Repr, DecidableEq

/-! ## The visitor -/

/-- The mutable state of PythonASTExtractor during one traversal. -/
structure ExtState where
  functions : List FuncInfo
  classes : List ClassInfo
  vars : List VarInfo
  constants : List VarInfo
  imports : List ImportInfo
  current_class : Option ClassInfo
  call_stack : List String
  scope_stack : List String
deriving Repr

/-- The state set up by PythonASTExtractor.__init__. -/
def initState : ExtState :=
  { functions := [], classes := [], vars := [], constants := [],
    imports := [], current_class := none, call_stack := [],
    scope_stack := ["module"] }

/-- _is_constant: all-uppercase, or a leading underscore followed by
all-uppercase. -/
def isConstant (name : String) : Bool :=
  pyIsUpper name.data || (pyStartsWith name "_" && pyIsUpper (name.data.drop 1))

/-- The recognized built-in constructor names of _infer_type. -/
def builtinConstructors : List String :=
  ["int", "float", "str", "bool", "bytes", "bytearray", "list", "dict", "set",
   "frozenset", "tuple", "complex", "range", "enumerate", "zip", "filter",
   "map", "slice", "object", "type"]

/-- _extract_call_name on the call's func expression. -/
def extractCallName (func : PyExpr) : Option String :=
  match func with
  | .name id => some id
  | .attr v a => some (unparseExpr (.attr v a))
  | _ => some (unparseExpr func)

/-- _classify_call on the call's func expression. -/
def classifyCall (func : PyExpr) : String :=
  match func with
  | .name _ => "function"
  | .attr (.name id) _ => if id = "self" then "method" else "attribute"
  | .attr _ _ => "attribute"
  | _ => "complex"

/-- _infer_type on the modelled expression fragment. -/
def inferType (e : PyExpr) : String :=
  match e with
  | .const v =>
    match v with
    | .noneVal => "None"
    | .intVal _ => "int"
    | .strVal _ => "str"
    | .boolVal _ => "bool"
  | .call f _ _ =>
    match extractCallName f with
    | some n => if n ∈ builtinConstructors then n else "Any"
    | none => "Any"
  | .name id =>
    if id = "None" then "None"
    else if id = "True" ∨ id = "False" then "bool"
    else "Any"
  | .attr _ _ => "Any"

/-- ast.get_docstring on the modelled fragment (returned verbatim; the
cleandoc whitespace normalization is not modelled). -/
def getDocstring (body : List PyStmt) : String :=
  match body with
  | .exprStmt (.const (.strVal s)) :: _ => s
  | _ => ""

/-- _extract_function. -/
def extractFunction (insideClass : Bool) (name : String) (args : List PyArg)
    (defaults : List PyExpr) (body : List PyStmt) (decorators : List String)
    (returns : Option PyExpr) (line : Nat) (endLine : Option Nat) : FuncInfo :=
  let numDefaults := defaults.length
  let numArgs := args.length
  let startIndex :=
    if insideClass ∧ 0 < numArgs ∧ (args.headD ⟨"", none⟩).name = "self" then 1
    else 0
  let parameters := (args.drop startIndex).mapIdx (fun j a =>
    let i := j + startIndex
    let defaultIdx : Int := (i : Int) - ((numArgs : Int) - (numDefaults : Int))
    let ptype := match a.ann with
      | some ann => normalizeType (unparseExpr ann)
      | none => "Any"
    let dv : Option String :=
      if 0 ≤ defaultIdx then
        some (((defaults.get? defaultIdx.toNat).map unparseExpr).getD "None")
      else none
    ParamInfo.mk a.name ptype dv)
  { name := name,
    parameters := parameters,
    returns := match returns with
      | some r => [{ name := normalizeType (unparseExpr r), kind := "builtin" }]
      | none => [{ name := "None", kind := "builtin" }],
    calls := [], called_by := [], calls_functions := [],
    start_line := line,
    end_line := endLine.getD line,
    decorators := decorators,
    is_async := false,
    docstring := getDocstring body,
    is_method := false,
    class_name := none }

/-- Update the first list entry with the given name. -/
def updateFirstByName (l : List FuncInfo) (n : String)
    (g : FuncInfo → FuncInfo) : List FuncInfo :=
  match l with
  | [] => []
  | f :: fs => if f.name = n then g f :: fs else f :: updateFirstByName fs n g

/-- Update the last list entry with the given name (the reversed loop of
_add_call_to_current_function). -/
def updateLastByName (l : List FuncInfo) (n : String)
    (g : FuncInfo → FuncInfo) : List FuncInfo :=
  (updateFirstByName l.reverse n g).reverse

/-- _add_call_to_current_function: appends the call to the last top-level
function with a matching name, and independently to the first matching
method of the current class. -/
def addCallToCurrentFunction (fc : List FuncInfo × Option ClassInfo)
    (funcName : String) (ci : CallInfo) : List FuncInfo × Option ClassInfo :=
  let functions := updateLastByName fc.1 funcName
    (fun f => { f with calls := f.calls ++ [ci] })
  let cc := match fc.2 with
    | some c =>
      some { c with
             methods := updateFirstByName c.methods funcName
               (fun f => { f with calls := f.calls ++ [ci] }) }
    | none => none
  (functions, cc)

mutual
/-- The expression traversal: generic_visit plus the visit_Call override.
Visiting an expression can only touch self.functions and self.current_class
(via _add_call_to_current_function) and reads self.call_stack, so exactly
that part of the state is threaded. -/
def visitExpr (stack : List String) (fc : List FuncInfo × Option ClassInfo) :
    PyExpr → List FuncInfo × Option ClassInfo
  | .name _ => fc
  | .const _ => fc
  | .attr v _ => visitExpr stack fc v
  | .call f args line =>
    let fc1 :=
      match stack.getLast? with
      | some current =>
        match extractCallName f with
        | some cn => addCallToCurrentFunction fc current
            { name := cn, line := line, ctype := classifyCall f }
        | none => fc
      | none => fc
    visitExprList stack (visitExpr stack fc1 f) args

def visitExprList (stack : List String)
    (fc : List FuncInfo × Option ClassInfo) :
    List PyExpr → List FuncInfo × Option ClassInfo
  | [] => fc
  | e :: es => visitExprList stack (visitExpr stack fc e) es
end

/-- Re-attach the functions/current-class pair to the full state. -/
def withFC (st : ExtState) (fc : List FuncInfo × Option ClassInfo) : ExtState :=
  { st with functions := fc.1, current_class := fc.2 }

def visitExprS (st : ExtState) (e : PyExpr) : ExtState :=
  withFC st (visitExpr st.call_stack (st.functions, st.current_class) e)

def visitExprListS (st : ExtState) (es : List PyExpr) : ExtState :=
  withFC st (visitExprList st.call_stack (st.functions, st.current_class) es)

def visitExprOptS (st : ExtState) : Option PyExpr → ExtState
  | some e => visitExprS st e
  | none => st

/-- generic_visit over the annotation expressions of an argument list. -/
def visitArgAnns (st : ExtState) (args : List PyArg) : ExtState :=
  args.foldl (fun s a =>
    match a.ann with
    | some e => visitExprS s e
    | none => s) st

/-- The target loop of visit_Assign: record each ast.Name target as a
variable or constant. -/
def assignTargets (value : PyExpr) (line : Nat) (st : ExtState)
    (targets : List PyExpr) : ExtState :=
  targets.foldl (fun s t =>
    match t with
    | .name id =>
      let vi : VarInfo :=
        { name := id, vtype := inferType value,
          line := line, is_exported := !(pyStartsWith id "_") }
      if isConstant id then { s with constants := s.constants ++ [vi] }
      else { s with vars := s.vars ++ [vi] }
    | _ => s) st

/-- The alias loop of visit_Import. -/
def importEntries (line : Nat) (st : ExtState)
    (names : List (String × Option String)) : ExtState :=
  names.foldl (fun s entry =>
    { s with
      imports := s.imports ++
        [{ path := entry.1,
           aliasName := entry.2.getD "", items := [], line := line,
           is_star_import := false }] }) st

/-- The alias loop of visit_ImportFrom, with the relative-import dots
prepended to the module path. -/
def importFromEntries (moduleName : String) (level : Nat) (line : Nat)
    (st : ExtState) (names : List (String × Option String)) : ExtState :=
  names.foldl (fun s entry =>
    { s with
      imports := s.imports ++
        [{ path := String.mk (List.replicate level '.') ++ moduleName,
           aliasName := entry.2.getD "",
           items := if entry.1 = "*" then [] else [entry.1], line := line,
           is_star_import := entry.1 = "*" }] }) st

mutual
/-- The statement dispatch of PythonASTExtractor: visit_FunctionDef,
visit_ClassDef, visit_Assign, visit_AnnAssign, visit_Import,
visit_ImportFrom, and generic_visit for the remaining statement kinds. -/
def visitStmt (st : ExtState) : PyStmt → ExtState
  | .funcDef name args defaults body decorators returns line endLine =>
    let fi := extractFunction st.current_class.isSome name args defaults body
      decorators returns line endLine
    let st1 :=
      match st.current_class with
      | some c =>
        { st with
          current_class := some { c with
                                  methods := c.methods ++
                                    [{ fi with
                                       is_method := true,
                                       class_name := some c.name }] } }
      | none =>
        { st with functions := st.functions ++ [{ fi with is_method := false }] }
    let oldStack := st1.call_stack
    let st2 := { st1 with call_stack := st1.call_stack ++ [name] }
    let st3 := visitArgAnns st2 args
    let st4 := visitExprListS st3 defaults
    let st5 := visitStmtList st4 body
    let st6 := visitExprOptS st5 returns
    { st6 with call_stack := oldStack }
  | .classDef name bases body decorators line endLine =>
    let ci : ClassInfo :=
      { name := name, kind := "class", fields := [],
        methods := [], embedded := unparseList bases, start_line := line,
        end_line := endLine.getD line, decorators := decorators,
        docstring := getDocstring body }
    let oldClass := st.current_class
    let st1 := { st with
                 current_class := some ci,
                 scope_stack := st.scope_stack ++ ["class:" ++ name] }
    let st2 := visitExprListS st1 bases
    let st3 := visitStmtList st2 body
    { st3 with
      scope_stack := st3.scope_stack.dropLast,
      current_class := oldClass,
      classes := st3.classes ++ [st3.current_class.getD ci] }
  | .assign targets value line =>
    let st1 :=
      if st.scope_stack.length = 1 then assignTargets value line st targets
      else st
    let st2 := visitExprListS st1 targets
    visitExprS st2 value
  | .annAssign target ann value line =>
    let st1 :=
      match target with
      | .name id =>
        if st.scope_stack.length = 1 then
          let vi : VarInfo :=
            { name := id,
              vtype := normalizeType (unparseExpr ann),
              line := line, is_exported := !(pyStartsWith id "_") }
          if isConstant id then { st with constants := st.constants ++ [vi] }
          else { st with vars := st.vars ++ [vi] }
        else st
      | _ => st
    let st2 := visitExprS st1 target
    let st3 := visitExprS st2 ann
    visitExprOptS st3 value
  | .exprStmt e => visitExprS st e
  | .ret e => visitExprOptS st e
  | .passStmt => st
  | .importStmt names line => importEntries line st names
  | .importFrom moduleName level names line =>
    importFromEntries moduleName level line st names

def visitStmtList (st : ExtState) : List PyStmt → ExtState
  | [] => st
  | s :: rest => visitStmtList (visitStmt st s) rest
end

/-- func_names in _build_call_graph: the names of all top-level functions
and all class methods. -/
def cgNames (functions : List FuncInfo) (classes : List ClassInfo) :
    List String :=
  (functions ++ (classes.map (fun c => c.methods)).flatten).map
    (fun f => f.name)

/-- The first pass of _build_call_graph on one function: calls_functions
keeps the names of recorded calls that contain no dot and match a known
local name; called_by is reset. -/
def cgPass1 (names : List String) (f : FuncInfo) : FuncInfo :=
  { f with
    calls_functions := (f.calls.filter (fun c =>
      !(c.name.data.contains '.') && names.contains c.name)).map
        (fun c => c.name),
    called_by := [] }

/-- all_functions after the first pass (top-level functions, then every
class's methods, in order). -/
def cgAll1 (functions : List FuncInfo) (classes : List ClassInfo) :
    List FuncInfo :=
  functions.map (cgPass1 (cgNames functions classes)) ++
    ((classes.map (fun c =>
      { c with methods := c.methods.map (cgPass1 (cgNames functions classes)) })).map
        (fun c => c.methods)).flatten

/-- The second pass of _build_call_graph: the callers recorded into the
called_by list of every function named n, in traversal order. -/
def cgCalledBy (functions : List FuncInfo) (classes : List ClassInfo)
    (n : String) : List String :=
  ((cgAll1 functions classes).map (fun f =>
    (f.calls_functions.filter (fun m => m = n)).map (fun _ => f.name))).flatten

/-- _build_call_graph: the second pass over all functions and methods. -/
def buildCallGraph (functions : List FuncInfo) (classes : List ClassInfo) :
    List FuncInfo × List ClassInfo :=
  ((functions.map (cgPass1 (cgNames functions classes))).map
    (fun f => { f with called_by := cgCalledBy functions classes f.name }),
   (classes.map (fun c =>
     { c with
       methods := c.methods.map (cgPass1 (cgNames functions classes)) })).map
     (fun c =>
       { c with
         methods := c.methods.map
           (fun f => { f with called_by := cgCalledBy functions classes f.name }) }))

/-- _extract_exports. -/
def extractExports (functions : List FuncInfo) (classes : List ClassInfo)
    (vars : List VarInfo) (constants : List VarInfo) : List ExportInfo :=
  ((functions.filter (fun f => !(pyStartsWith f.name "_"))).map
    (fun f => ExportInfo.mk f.name "function" f.start_line)) ++
  ((classes.filter (fun c => !(pyStartsWith c.name "_"))).map
    (fun c => ExportInfo.mk c.name "class" c.start_line)) ++
  ((vars.filter (fun v => v.is_exported)).map
    (fun v => ExportInfo.mk v.name "variable" v.line)) ++
  ((constants.filter (fun v => v.is_exported)).map
    (fun v => ExportInfo.mk v.name "constant" v.line))

/-- PythonASTExtractor.extract: the argument is the result of ast.parse
(Except.error carries the parse-failure message, which the except-branch
turns into the single "Parse error" entry). -/
def extract (path : String) (parsed : Except String PyModule) : FileRecord :=
  match parsed with
  | .ok m =>
    let st := visitStmtList initState m
    let fc := buildCallGraph st.functions st.classes
    { path := path, language := "python",
      functions := fc.1, types := fc.2,
      vars := st.vars, constants := st.constants,
      imports := st.imports,
      exports := extractExports fc.1 fc.2 st.vars st.constants,
      errors := [] }
  | .error msg =>
    { path := path, language := "python", functions := [], types := [],
      vars := [], constants := [], imports := [], exports := [],
      errors := ["Parse error: " ++ msg] }

/-- Extraction of a successfully parsed module. -/
def extractModule (m : PyModule) : FileRecord := extract "" (.ok m)

/-! ## Traversal invariants

The traversal only ever appends to self.functions (or rewrites an entry
in place, keeping its name), and class scopes are restored on exit.  These
frame facts power the visibility (C9) and nested-function (C10) claims. -/

/-- Frame relation on the functions/current-class part of the state: the
function-name list only grows at the end, and whether a class is being
defined does not change. -/
def FrameFC (a b : List FuncInfo × Option ClassInfo) : Prop :=
  a.1.map (fun f => f.name) <+: b.1.map (fun f => f.name) ∧
  b.2.isNone = a.2.isNone

theorem frameFC_refl (a : List FuncInfo × Option ClassInfo) : FrameFC a a :=
  ⟨List.prefix_rfl, rfl⟩

theorem frameFC_trans {a b c : List FuncInfo × Option ClassInfo}
    (h1 : FrameFC a b) (h2 : FrameFC b c) : FrameFC a c :=
  ⟨h1.1.trans h2.1, h2.2.trans h1.2⟩

theorem updateFirstByName_map (l : List FuncInfo) (n : String)
    (g : FuncInfo → FuncInfo) (hg : ∀ f, (g f).name = f.name) :
    (updateFirstByName l n g).map (fun f => f.name) =
      l.map (fun f => f.name) := by
  induction l with
  | nil => rfl
  | cons f fs ih =>
    unfold updateFirstByName
    split
    · simp [hg]
    · simp only [List.map_cons, ih]

theorem updateLastByName_map (l : List FuncInfo) (n : String)
    (g : FuncInfo → FuncInfo) (hg : ∀ f, (g f).name = f.name) :
    (updateLastByName l n g).map (fun f => f.name) =
      l.map (fun f => f.name) := by
  unfold updateLastByName
  rw [List.map_reverse, updateFirstByName_map _ _ _ hg, ← List.map_reverse,
    List.reverse_reverse]

theorem addCall_frameFC (fc : List FuncInfo × Option ClassInfo)
    (n : String) (ci : CallInfo) :
    FrameFC fc (addCallToCurrentFunction fc n ci) := by
  obtain ⟨fns, cc⟩ := fc
  constructor
  · show fns.map (fun f => f.name) <+: (updateLastByName fns n
      (fun f => { f with calls := f.calls ++ [ci] })).map (fun f => f.name)
    rw [updateLastByName_map fns n
      (fun f => { f with calls := f.calls ++ [ci] }) (fun f => rfl)]
  · cases cc <;> rfl

mutual
theorem visitExpr_frame (stack : List String)
    (fc : List FuncInfo × Option ClassInfo) (e : PyExpr) :
    FrameFC fc (visitExpr stack fc e) := by
  cases e with
  | name id => exact frameFC_refl _
  | const v => exact frameFC_refl _
  | attr v a =>
    show FrameFC fc (visitExpr stack fc v)
    exact visitExpr_frame stack fc v
  | call f args line =>
    simp only [visitExpr]
    cases hs : stack.getLast? with
    | none =>
      simp only [hs]
      exact frameFC_trans (visitExpr_frame stack fc f)
        (visitExprList_frame stack _ args)
    | some current =>
      simp only [hs]
      cases hc : extractCallName f with
      | none =>
        simp only [hc]
        exact frameFC_trans (visitExpr_frame stack fc f)
          (visitExprList_frame stack _ args)
      | some cn =>
        simp only [hc]
        exact frameFC_trans (addCall_frameFC fc current _)
          (frameFC_trans (visitExpr_frame stack _ f)
            (visitExprList_frame stack _ args))

theorem visitExprList_frame (stack : List String)
    (fc : List FuncInfo × Option ClassInfo) (l : List PyExpr) :
    FrameFC fc (visitExprList stack fc l) := by
  cases l with
  | nil => exact frameFC_refl _
  | cons e es =>
    show FrameFC fc (visitExprList stack (visitExpr stack fc e) es)
    exact frameFC_trans (visitExpr_frame stack fc e)
      (visitExprList_frame stack _ es)
end

/-- Frame relation on the full state. -/
def FrameS (a b : ExtState) : Prop :=
  a.functions.map (fun f => f.name) <+: b.functions.map (fun f => f.name) ∧
  b.current_class.isNone = a.current_class.isNone

theorem frameS_refl (a : ExtState) : FrameS a a := ⟨List.prefix_rfl, rfl⟩

theorem frameS_trans {a b c : ExtState} (h1 : FrameS a b) (h2 : FrameS b c) :
    FrameS a c :=
  ⟨h1.1.trans h2.1, h2.2.trans h1.2⟩

theorem visitExprS_frame (st : ExtState) (e : PyExpr) :
    FrameS st (visitExprS st e) := by
  have h := visitExpr_frame st.call_stack (st.functions, st.current_class) e
  exact ⟨h.1, h.2⟩

theorem visitExprListS_frame (st : ExtState) (l : List PyExpr) :
    FrameS st (visitExprListS st l) := by
  have h := visitExprList_frame st.call_stack (st.functions, st.current_class) l
  exact ⟨h.1, h.2⟩

theorem visitExprOptS_frame (st : ExtState) (e : Option PyExpr) :
    FrameS st (visitExprOptS st e) := by
  cases e with
  | none => exact frameS_refl _
  | some e => exact visitExprS_frame st e

theorem visitArgAnns_frame (args : List PyArg) :
    ∀ st : ExtState, FrameS st (visitArgAnns st args) := by
  induction args with
  | nil => exact fun st => frameS_refl _
  | cons a rest ih =>
    intro st
    show FrameS st (List.foldl _ _ rest)
    cases ha : a.ann with
    | none =>
      have h2 := ih (match a.ann with | some e => visitExprS st e | none => st)
      rw [ha] at h2
      exact frameS_trans (frameS_refl st) (by simpa [visitArgAnns, ha] using h2)
    | some e =>
      have h2 := ih (visitExprS st e)
      exact frameS_trans (visitExprS_frame st e)
        (by simpa [visitArgAnns, ha] using h2)

theorem frameS_cs_update (b : ExtState) (z : List String) :
    FrameS b { b with call_stack := z } := ⟨List.prefix_rfl, rfl⟩

theorem frameS_of_fc_eq {a b : ExtState} (h1 : b.functions = a.functions)
    (h2 : b.current_class = a.current_class) : FrameS a b :=
  ⟨h1 ▸ List.prefix_rfl, by rw [h2]⟩

theorem assignTargets_fc (value : PyExpr) (line : Nat) :
    ∀ (ts : List PyExpr) (st : ExtState),
      (assignTargets value line st ts).functions = st.functions ∧
      (assignTargets value line st ts).current_class = st.current_class := by
  intro ts
  induction ts with
  | nil => exact fun st => ⟨rfl, rfl⟩
  | cons t rest ih =>
    intro st
    show (assignTargets value line st (t :: rest)).functions = st.functions ∧ _
    cases t with
    | name id =>
      cases hc : isConstant id with
      | true =>
        have h := ih { st with constants := st.constants ++
          [{ name := id, vtype := inferType value, line := line,
             is_exported := !(pyStartsWith id "_") }] }
        simpa [assignTargets, List.foldl_cons, hc] using h
      | false =>
        have h := ih { st with vars := st.vars ++
          [{ name := id, vtype := inferType value, line := line,
             is_exported := !(pyStartsWith id "_") }] }
        simpa [assignTargets, List.foldl_cons, hc] using h
    | attr v a => simpa [assignTargets, List.foldl_cons] using ih st
    | call f args l2 => simpa [assignTargets, List.foldl_cons] using ih st
    | const v => simpa [assignTargets, List.foldl_cons] using ih st

theorem importEntries_fc (line : Nat) :
    ∀ (names : List (String × Option String)) (st : ExtState),
      (importEntries line st names).functions = st.functions ∧
      (importEntries line st names).current_class = st.current_class := by
  intro names
  induction names with
  | nil => exact fun st => ⟨rfl, rfl⟩
  | cons a rest ih =>
    intro st
    have h := ih { st with imports := st.imports ++
      [{ path := a.1, aliasName := a.2.getD "", items := [], line := line,
         is_star_import := false }] }
    simpa [importEntries, List.foldl_cons] using h

theorem importFromEntries_fc (moduleName : String) (level : Nat) (line : Nat) :
    ∀ (names : List (String × Option String)) (st : ExtState),
      (importFromEntries moduleName level line st names).functions =
        st.functions ∧
      (importFromEntries moduleName level line st names).current_class =
        st.current_class := by
  intro names
  induction names with
  | nil => exact fun st => ⟨rfl, rfl⟩
  | cons a rest ih =>
    intro st
    have h := ih { st with imports := st.imports ++
      [{ path := String.mk (List.replicate level '.') ++ moduleName,
         aliasName := a.2.getD "",
         items := if a.1 = "*" then [] else [a.1], line := line,
         is_star_import := a.1 = "*" }] }
    simpa [importFromEntries, List.foldl_cons] using h

mutual
theorem visitStmt_frame (st : ExtState) (s : PyStmt) :
    FrameS st (visitStmt st s) := by
  cases s with
  | funcDef n args defaults body decs rets ln el =>
    cases hcc : st.current_class with
    | none =>
      simp only [visitStmt, hcc]
      refine frameS_trans ?_ (frameS_cs_update _ _)
      refine frameS_trans ?_ (visitExprOptS_frame _ rets)
      refine frameS_trans ?_ (visitStmtList_frame _ body)
      refine frameS_trans ?_ (visitExprListS_frame _ defaults)
      refine frameS_trans ?_ (visitArgAnns_frame args _)
      constructor
      · rw [List.map_append]
        exact List.prefix_append _ _
      · rw [hcc]
    | some c =>
      simp only [visitStmt, hcc]
      refine frameS_trans ?_ (frameS_cs_update _ _)
      refine frameS_trans ?_ (visitExprOptS_frame _ rets)
      refine frameS_trans ?_ (visitStmtList_frame _ body)
      refine frameS_trans ?_ (visitExprListS_frame _ defaults)
      refine frameS_trans ?_ (visitArgAnns_frame args _)
      refine ⟨List.prefix_rfl, ?_⟩
      rw [hcc]
      rfl
  | classDef n bases body decs ln el =>
    simp only [visitStmt]
    constructor
    · refine List.IsPrefix.trans ?_ (visitStmtList_frame _ body).1
      exact (visitExprListS_frame
        { st with
          current_class := some
            { name := n, kind := "class", fields := [], methods := [],
              embedded := unparseList bases, start_line := ln,
              end_line := el.getD ln, decorators := decs,
              docstring := getDocstring body },
          scope_stack := st.scope_stack ++ ["class:" ++ n] } bases).1
    · rfl
  | assign targets value ln =>
    simp only [visitStmt]
    refine frameS_trans ?_ (visitExprS_frame _ value)
    refine frameS_trans ?_ (visitExprListS_frame _ targets)
    split
    · exact frameS_of_fc_eq (assignTargets_fc value ln targets st).1
        (assignTargets_fc value ln targets st).2
    · exact frameS_refl st
  | annAssign target ann value ln =>
    simp only [visitStmt]
    refine frameS_trans ?_ (visitExprOptS_frame _ value)
    refine frameS_trans ?_ (visitExprS_frame _ ann)
    refine frameS_trans ?_ (visitExprS_frame _ target)
    cases target with
    | name id =>
      simp only []
      split
      · split
        · exact frameS_of_fc_eq rfl rfl
        · exact frameS_of_fc_eq rfl rfl
      · exact frameS_refl st
    | attr v a => exact frameS_refl st
    | call f args l2 => exact frameS_refl st
    | const v => exact frameS_refl st
  | exprStmt e =>
    show FrameS st (visitExprS st e)
    exact visitExprS_frame st e
  | ret e =>
    show FrameS st (visitExprOptS st e)
    exact visitExprOptS_frame st e
  | passStmt => exact frameS_refl st
  | importStmt names ln =>
    show FrameS st (importEntries ln st names)
    exact frameS_of_fc_eq (importEntries_fc ln names st).1
      (importEntries_fc ln names st).2
  | importFrom moduleName level names ln =>
    show FrameS st (importFromEntries moduleName level ln st names)
    exact frameS_of_fc_eq (importFromEntries_fc moduleName level ln names st).1
      (importFromEntries_fc moduleName level ln names st).2

theorem visitStmtList_frame (st : ExtState) (l : List PyStmt) :
    FrameS st (visitStmtList st l) := by
  cases l with
  | nil => exact frameS_refl st
  | cons s rest =>
    show FrameS st (visitStmtList (visitStmt st s) rest)
    exact frameS_trans (visitStmt_frame st s) (visitStmtList_frame _ rest)
end

/-- The flag invariant of variable/constant records: is_exported is exactly
the leading-underscore visibility test on the name (set once, in
_extract_variable and _extract_annotated_variable). -/
def VarsOK (st : ExtState) : Prop :=
  (∀ v ∈ st.vars, v.is_exported = !(pyStartsWith v.name "_")) ∧
  (∀ v ∈ st.constants, v.is_exported = !(pyStartsWith v.name "_"))

theorem varsOK_init : VarsOK initState := by
  constructor <;> intro v hv <;> simp [initState] at hv

theorem varsOK_of_vc_eq {a b : ExtState} (h1 : b.vars = a.vars)
    (h2 : b.constants = a.constants) (h : VarsOK a) : VarsOK b := by
  constructor
  · intro v hv
    rw [h1] at hv
    exact h.1 v hv
  · intro v hv
    rw [h2] at hv
    exact h.2 v hv

theorem varsOK_exprS {st : ExtState} (e : PyExpr) (h : VarsOK st) :
    VarsOK (visitExprS st e) := h

theorem varsOK_exprListS {st : ExtState} (es : List PyExpr) (h : VarsOK st) :
    VarsOK (visitExprListS st es) := h

theorem varsOK_exprOptS {st : ExtState} (e : Option PyExpr) (h : VarsOK st) :
    VarsOK (visitExprOptS st e) := by
  cases e with
  | none => exact h
  | some e => exact varsOK_exprS e h

theorem varsOK_argAnns (args : List PyArg) :
    ∀ st : ExtState, VarsOK st → VarsOK (visitArgAnns st args) := by
  induction args with
  | nil => exact fun st h => h
  | cons a rest ih =>
    intro st h
    cases ha : a.ann with
    | none =>
      have h2 := ih st h
      simpa [visitArgAnns, List.foldl_cons, ha] using h2
    | some e =>
      have h2 := ih (visitExprS st e) (varsOK_exprS e h)
      simpa [visitArgAnns, List.foldl_cons, ha] using h2

theorem varsOK_assignTargets (value : PyExpr) (line : Nat) :
    ∀ (ts : List PyExpr) (st : ExtState), VarsOK st →
      VarsOK (assignTargets value line st ts) := by
  intro ts
  induction ts with
  | nil => exact fun st h => h
  | cons t rest ih =>
    intro st h
    cases t with
    | name id =>
      cases hc : isConstant id with
      | true =>
        have hstep : VarsOK { st with constants := st.constants ++
            [{ name := id, vtype := inferType value, line := line,
               is_exported := !(pyStartsWith id "_") }] } := by
          constructor
          · intro v hv
            exact h.1 v hv
          · intro v hv
            rcases List.mem_append.mp hv with h1 | h1
            · exact h.2 v h1
            · simp at h1
              subst h1
              rfl
        have h2 := ih _ hstep
        simpa [assignTargets, List.foldl_cons, hc] using h2
      | false =>
        have hstep : VarsOK { st with vars := st.vars ++
            [{ name := id, vtype := inferType value, line := line,
               is_exported := !(pyStartsWith id "_") }] } := by
          constructor
          · intro v hv
            rcases List.mem_append.mp hv with h1 | h1
            · exact h.1 v h1
            · simp at h1
              subst h1
              rfl
          · intro v hv
            exact h.2 v hv
        have h2 := ih _ hstep
        simpa [assignTargets, List.foldl_cons, hc] using h2
    | attr v a => simpa [assignTargets, List.foldl_cons] using ih st h
    | call f args l2 => simpa [assignTargets, List.foldl_cons] using ih st h
    | const v => simpa [assignTargets, List.foldl_cons] using ih st h

theorem importEntries_vc (line : Nat) :
    ∀ (names : List (String × Option String)) (st : ExtState),
      (importEntries line st names).vars = st.vars ∧
      (importEntries line st names).constants = st.constants := by
  intro names
  induction names with
  | nil => exact fun st => ⟨rfl, rfl⟩
  | cons a rest ih =>
    intro st
    have h := ih { st with imports := st.imports ++
      [{ path := a.1, aliasName := a.2.getD "", items := [], line := line,
         is_star_import := false }] }
    simpa [importEntries, List.foldl_cons] using h

theorem importFromEntries_vc (moduleName : String) (level : Nat) (line : Nat) :
    ∀ (names : List (String × Option String)) (st : ExtState),
      (importFromEntries moduleName level line st names).vars = st.vars ∧
      (importFromEntries moduleName level line st names).constants =
        st.constants := by
  intro names
  induction names with
  | nil => exact fun st => ⟨rfl, rfl⟩
  | cons a rest ih =>
    intro st
    have h := ih { st with imports := st.imports ++
      [{ path := String.mk (List.replicate level '.') ++ moduleName,
         aliasName := a.2.getD "",
         items := if a.1 = "*" then [] else [a.1], line := line,
         is_star_import := a.1 = "*" }] }
    simpa [importFromEntries, List.foldl_cons] using h

mutual
theorem visitStmt_varsOK (st : ExtState) (s : PyStmt) (h : VarsOK st) :
    VarsOK (visitStmt st s) := by
  cases s with
  | funcDef n args defaults body decs rets ln el =>
    cases hcc : st.current_class with
    | none =>
      simp only [visitStmt, hcc]
      exact varsOK_exprOptS rets (visitStmtList_varsOK _ body
        (varsOK_exprListS defaults (varsOK_argAnns args _ h)))
    | some c =>
      simp only [visitStmt, hcc]
      exact varsOK_exprOptS rets (visitStmtList_varsOK _ body
        (varsOK_exprListS defaults (varsOK_argAnns args _ h)))
  | classDef n bases body decs ln el =>
    simp only [visitStmt]
    exact visitStmtList_varsOK _ body (varsOK_exprListS bases h)
  | assign targets value ln =>
    simp only [visitStmt]
    refine varsOK_exprS value (varsOK_exprListS targets ?_)
    split
    · exact varsOK_assignTargets value ln targets st h
    · exact h
  | annAssign target ann value ln =>
    simp only [visitStmt]
    refine varsOK_exprOptS value (varsOK_exprS ann (varsOK_exprS target ?_))
    cases target with
    | name id =>
      by_cases hs : st.scope_stack.length = 1
      · simp only [if_pos hs]
        by_cases hc : isConstant id = true
        · simp only [if_pos hc]
          constructor
          · intro v hv
            exact h.1 v hv
          · intro v hv
            rcases List.mem_append.mp hv with h1 | h1
            · exact h.2 v h1
            · simp at h1
              subst h1
              rfl
        · simp only [if_neg hc]
          constructor
          · intro v hv
            rcases List.mem_append.mp hv with h1 | h1
            · exact h.1 v h1
            · simp at h1
              subst h1
              rfl
          · intro v hv
            exact h.2 v hv
      · simp only [if_neg hs]
        exact h
    | attr v a => exact h
    | call f args l2 => exact h
    | const v => exact h
  | exprStmt e => exact varsOK_exprS e h
  | ret e => exact varsOK_exprOptS e h
  | passStmt => exact h
  | importStmt names ln =>
    show VarsOK (importEntries ln st names)
    exact varsOK_of_vc_eq (importEntries_vc ln names st).1
      (importEntries_vc ln names st).2 h
  | importFrom moduleName level names ln =>
    show VarsOK (importFromEntries moduleName level ln st names)
    exact varsOK_of_vc_eq (importFromEntries_vc moduleName level ln names st).1
      (importFromEntries_vc moduleName level ln names st).2 h

theorem visitStmtList_varsOK (st : ExtState) (l : List PyStmt) (h : VarsOK st) :
    VarsOK (visitStmtList st l) := by
  cases l with
  | nil => exact h
  | cons s rest =>
    show VarsOK (visitStmtList (visitStmt st s) rest)
    exact visitStmtList_varsOK _ rest (visitStmt_varsOK st s h)
end

theorem mem_of_frameS {a b : ExtState} (h : FrameS a b) {n : String}
    (hn : n ∈ a.functions.map (fun f => f.name)) :
    n ∈ b.functions.map (fun f => f.name) :=
  h.1.subset hn

theorem cc_none_of_frameS {a b : ExtState} (h : FrameS a b)
    (ha : a.current_class = none) : b.current_class = none := by
  have h2 := h.2
  rw [ha] at h2
  exact Option.isNone_iff_eq_none.mp (by simpa using h2)

theorem visitStmt_cc_none {st : ExtState} (s : PyStmt)
    (h : st.current_class = none) : (visitStmt st s).current_class = none :=
  cc_none_of_frameS (visitStmt_frame st s) h

theorem extractFunction_name (ic : Bool) (n : String) (args : List PyArg)
    (defaults : List PyExpr) (body : List PyStmt) (decs : List String)
    (rets : Option PyExpr) (ln : Nat) (el : Option Nat) :
    (extractFunction ic n args defaults body decs rets ln el).name = n := rfl

/-- Outside any class, visiting a function definition puts its name into
the top-level functions list (and later visiting only appends). -/
theorem visitStmt_funcDef_mem (st : ExtState)
    (hcc : st.current_class = none) (n : String) (args : List PyArg)
    (defaults : List PyExpr) (body : List PyStmt) (decs : List String)
    (rets : Option PyExpr) (ln : Nat) (el : Option Nat) :
    n ∈ (visitStmt st
      (.funcDef n args defaults body decs rets ln el)).functions.map
        (fun f => f.name) := by
  simp only [visitStmt, hcc]
  apply mem_of_frameS (frameS_trans (visitArgAnns_frame args _)
    (frameS_trans (visitExprListS_frame _ defaults)
      (frameS_trans (visitStmtList_frame _ body)
        (frameS_trans (visitExprOptS_frame _ rets) (frameS_cs_update _ _)))))
  simp [extractFunction_name]

theorem visitStmtList_funcDef_mem
    (iname : String) (iargs : List PyArg) (idefs : List PyExpr)
    (ibody : List PyStmt) (idecs : List String) (irets : Option PyExpr)
    (il : Nat) (iel : Option Nat) :
    ∀ (l : List PyStmt) (st : ExtState), st.current_class = none →
      (PyStmt.funcDef iname iargs idefs ibody idecs irets il iel) ∈ l →
      iname ∈ (visitStmtList st l).functions.map (fun f => f.name) := by
  intro l
  induction l with
  | nil =>
    intro st _ hin
    simp at hin
  | cons s rest ih =>
    intro st hcc hin
    rcases List.mem_cons.mp hin with heq | hmem
    · rw [← heq]
      show iname ∈ (visitStmtList (visitStmt st
        (.funcDef iname iargs idefs ibody idecs irets il iel)) rest).functions.map
          (fun f => f.name)
      apply mem_of_frameS (visitStmtList_frame _ rest)
      exact visitStmt_funcDef_mem st hcc iname iargs idefs ibody idecs irets il iel
    · show iname ∈ (visitStmtList (visitStmt st s) rest).functions.map
        (fun f => f.name)
      exact ih (visitStmt st s) (visitStmt_cc_none s hcc) hmem

/-! ## Innermost attachment of calls (§ visit_Call and
_add_call_to_current_function) -/

mutual
/-- The names of the function definitions contained in a statement subtree:
exactly the names the traversal pushes on the call stack while the subtree
is visited. -/
def defNamesStmt : PyStmt → List String
  | .funcDef name _ _ body _ _ _ _ => name :: defNamesList body
  | .classDef _ _ body _ _ _ => defNamesList body
  | .assign _ _ _ => []
  | .annAssign _ _ _ _ => []
  | .exprStmt _ => []
  | .ret _ => []
  | .passStmt => []
  | .importStmt _ _ => []
  | .importFrom _ _ _ _ => []

def defNamesList : List PyStmt → List String
  | [] => []
  | s :: rest => defNamesStmt s ++ defNamesList rest
end

theorem visitExprS_stack (st : ExtState) (e : PyExpr) :
    (visitExprS st e).call_stack = st.call_stack := rfl

theorem visitExprListS_stack (st : ExtState) (es : List PyExpr) :
    (visitExprListS st es).call_stack = st.call_stack := rfl

theorem visitExprOptS_stack (st : ExtState) (e : Option PyExpr) :
    (visitExprOptS st e).call_stack = st.call_stack := by
  cases e <;> rfl

theorem visitArgAnns_stack (args : List PyArg) :
    ∀ st : ExtState, (visitArgAnns st args).call_stack = st.call_stack := by
  induction args with
  | nil => exact fun st => rfl
  | cons a rest ih =>
    intro st
    cases ha : a.ann with
    | none =>
      have h2 := ih st
      simpa [visitArgAnns, List.foldl_cons, ha] using h2
    | some e =>
      have h2 : (visitArgAnns (visitExprS st e) rest).call_stack =
          st.call_stack := ih (visitExprS st e)
      simpa [visitArgAnns, List.foldl_cons, ha] using h2

theorem assignTargets_stack (value : PyExpr) (line : Nat) :
    ∀ (ts : List PyExpr) (st : ExtState),
      (assignTargets value line st ts).call_stack = st.call_stack := by
  intro ts
  induction ts with
  | nil => exact fun st => rfl
  | cons t rest ih =>
    intro st
    cases t with
    | name id =>
      cases hc : isConstant id with
      | true =>
        have h := ih { st with constants := st.constants ++
          [{ name := id, vtype := inferType value, line := line,
             is_exported := !(pyStartsWith id "_") }] }
        simpa [assignTargets, List.foldl_cons, hc] using h
      | false =>
        have h := ih { st with vars := st.vars ++
          [{ name := id, vtype := inferType value, line := line,
             is_exported := !(pyStartsWith id "_") }] }
        simpa [assignTargets, List.foldl_cons, hc] using h
    | attr v a => simpa [assignTargets, List.foldl_cons] using ih st
    | call f args l2 => simpa [assignTargets, List.foldl_cons] using ih st
    | const v => simpa [assignTargets, List.foldl_cons] using ih st

theorem importEntries_stack (line : Nat) :
    ∀ (names : List (String × Option String)) (st : ExtState),
      (importEntries line st names).call_stack = st.call_stack := by
  intro names
  induction names with
  | nil => exact fun st => rfl
  | cons a rest ih =>
    intro st
    have h := ih { st with imports := st.imports ++
      [{ path := a.1, aliasName := a.2.getD "", items := [], line := line,
         is_star_import := false }] }
    simpa [importEntries, List.foldl_cons] using h

theorem importFromEntries_stack (moduleName : String) (level : Nat)
    (line : Nat) :
    ∀ (names : List (String × Option String)) (st : ExtState),
      (importFromEntries moduleName level line st names).call_stack =
        st.call_stack := by
  intro names
  induction names with
  | nil => exact fun st => rfl
  | cons a rest ih =>
    intro st
    have h := ih { st with imports := st.imports ++
      [{ path := String.mk (List.replicate level '.') ++ moduleName,
         aliasName := a.2.getD "",
         items := if a.1 = "*" then [] else [a.1], line := line,
         is_star_import := a.1 = "*" }] }
    simpa [importFromEntries, List.foldl_cons] using h

mutual
theorem visitStmt_stack (st : ExtState) (s : PyStmt) :
    (visitStmt st s).call_stack = st.call_stack := by
  cases s with
  | funcDef name args defaults body decs rets ln el =>
    cases hcc : st.current_class with
    | none => simp [visitStmt, hcc]
    | some c => simp [visitStmt, hcc]
  | classDef name bases body decs ln el =>
    simp only [visitStmt]
    exact visitStmtList_stack _ body
  | assign targets value ln =>
    simp only [visitStmt]
    by_cases hs : st.scope_stack.length = 1
    · simp only [if_pos hs]
      exact assignTargets_stack value ln targets st
    · simp only [if_neg hs]
      rfl
  | annAssign target ann value ln =>
    simp only [visitStmt]
    cases target with
    | name id =>
      by_cases hs : st.scope_stack.length = 1
      · simp only [if_pos hs]
        by_cases hc : isConstant id = true
        · simp only [if_pos hc]
          rw [visitExprOptS_stack]
          rfl
        · simp only [if_neg hc]
          rw [visitExprOptS_stack]
          rfl
      · simp only [if_neg hs]
        rw [visitExprOptS_stack]
        rfl
    | attr v a =>
      rw [visitExprOptS_stack]
      rfl
    | call f args l2 =>
      rw [visitExprOptS_stack]
      rfl
    | const v =>
      rw [visitExprOptS_stack]
      rfl
  | exprStmt e => rfl
  | ret e =>
    show (visitExprOptS st e).call_stack = st.call_stack
    exact visitExprOptS_stack st e
  | passStmt => rfl
  | importStmt names ln =>
    show (importEntries ln st names).call_stack = st.call_stack
    exact importEntries_stack ln names st
  | importFrom moduleName level names ln =>
    show (importFromEntries moduleName level ln st names).call_stack =
      st.call_stack
    exact importFromEntries_stack moduleName level ln names st

theorem visitStmtList_stack (st : ExtState) (l : List PyStmt) :
    (visitStmtList st l).call_stack = st.call_stack := by
  cases l with
  | nil => rfl
  | cons s rest =>
    show (visitStmtList (visitStmt st s) rest).call_stack = st.call_stack
    exact (visitStmtList_stack _ rest).trans (visitStmt_stack st s)
end

theorem updateFirstByName_filter (m n : String) (hne : ¬ m = n)
    (g : FuncInfo → FuncInfo) (hg : ∀ f, (g f).name = f.name) :
    ∀ l : List FuncInfo,
      (updateFirstByName l m g).filter (fun f => f.name = n) =
        l.filter (fun f => f.name = n) := by
  intro l
  induction l with
  | nil => rfl
  | cons f fs ih =>
    by_cases hf : f.name = m
    · simp only [updateFirstByName, if_pos hf, List.filter_cons]
      have h1 : (decide ((g f).name = n)) = false := by
        rw [hg f, hf]
        exact decide_eq_false hne
      have h2 : (decide (f.name = n)) = false := by
        rw [hf]
        exact decide_eq_false hne
      rw [h1, h2]
      simp
    · simp only [updateFirstByName, if_neg hf, List.filter_cons, ih]

theorem updateLastByName_filter (m n : String) (hne : ¬ m = n)
    (g : FuncInfo → FuncInfo) (hg : ∀ f, (g f).name = f.name)
    (l : List FuncInfo) :
    (updateLastByName l m g).filter (fun f => f.name = n) =
      l.filter (fun f => f.name = n) := by
  simp only [updateLastByName]
  rw [List.filter_reverse, updateFirstByName_filter m n hne g hg,
    List.filter_reverse, List.reverse_reverse]

/-- _add_call_to_current_function only touches top-level entries named like
the current function (the call stack top): the sublist of entries with any
other name is untouched. -/
theorem addCall_filter (fc : List FuncInfo × Option ClassInfo)
    (m : String) (ci : CallInfo) (n : String) (hne : ¬ m = n) :
    (addCallToCurrentFunction fc m ci).1.filter (fun f => f.name = n) =
      fc.1.filter (fun f => f.name = n) := by
  show (updateLastByName fc.1 m
      (fun f => { f with calls := f.calls ++ [ci] })).filter _ = _
  exact updateLastByName_filter m n hne
    (fun f => { f with calls := f.calls ++ [ci] }) (fun f => rfl) fc.1

theorem filter_name_append_ne (l : List FuncInfo) (f : FuncInfo) (n : String)
    (h : ¬ f.name = n) :
    (l ++ [f]).filter (fun g => g.name = n) =
      l.filter (fun g => g.name = n) := by
  rw [List.filter_append]
  simp [h]

mutual
theorem visitExpr_nfilter (stack : List String)
    (fc : List FuncInfo × Option ClassInfo) (e : PyExpr) (n : String)
    (h : ¬ stack.getLast? = some n) :
    (visitExpr stack fc e).1.filter (fun f => f.name = n) =
      fc.1.filter (fun f => f.name = n) := by
  cases e with
  | name id => rfl
  | const v => rfl
  | attr v a =>
    show (visitExpr stack fc v).1.filter _ = _
    exact visitExpr_nfilter stack fc v n h
  | call f args line =>
    simp only [visitExpr]
    cases hs : stack.getLast? with
    | none =>
      simp only [hs]
      exact (visitExprList_nfilter stack _ args n h).trans
        (visitExpr_nfilter stack fc f n h)
    | some current =>
      simp only [hs]
      cases hc : extractCallName f with
      | none =>
        simp only [hc]
        exact (visitExprList_nfilter stack _ args n h).trans
          (visitExpr_nfilter stack fc f n h)
      | some cn =>
        simp only [hc]
        have hcur : ¬ current = n := by
          intro he
          rw [he] at hs
          exact h hs
        exact (visitExprList_nfilter stack _ args n h).trans
          ((visitExpr_nfilter stack _ f n h).trans
            (addCall_filter fc current _ n hcur))

theorem visitExprList_nfilter (stack : List String)
    (fc : List FuncInfo × Option ClassInfo) (l : List PyExpr) (n : String)
    (h : ¬ stack.getLast? = some n) :
    (visitExprList stack fc l).1.filter (fun f => f.name = n) =
      fc.1.filter (fun f => f.name = n) := by
  cases l with
  | nil => rfl
  | cons e es =>
    show (visitExprList stack (visitExpr stack fc e) es).1.filter _ = _
    exact (visitExprList_nfilter stack _ es n h).trans
      (visitExpr_nfilter stack fc e n h)
end

theorem visitExprS_nfilter (st : ExtState) (e : PyExpr) (n : String)
    (h : ¬ st.call_stack.getLast? = some n) :
    (visitExprS st e).functions.filter (fun f => f.name = n) =
      st.functions.filter (fun f => f.name = n) :=
  visitExpr_nfilter st.call_stack (st.functions, st.current_class) e n h

theorem visitExprListS_nfilter (st : ExtState) (es : List PyExpr) (n : String)
    (h : ¬ st.call_stack.getLast? = some n) :
    (visitExprListS st es).functions.filter (fun f => f.name = n) =
      st.functions.filter (fun f => f.name = n) :=
  visitExprList_nfilter st.call_stack (st.functions, st.current_class) es n h

theorem visitExprOptS_nfilter (st : ExtState) (e : Option PyExpr) (n : String)
    (h : ¬ st.call_stack.getLast? = some n) :
    (visitExprOptS st e).functions.filter (fun f => f.name = n) =
      st.functions.filter (fun f => f.name = n) := by
  cases e with
  | none => rfl
  | some e => exact visitExprS_nfilter st e n h

theorem visitArgAnns_nfilter (args : List PyArg) :
    ∀ (st : ExtState) (n : String), ¬ st.call_stack.getLast? = some n →
      (visitArgAnns st args).functions.filter (fun f => f.name = n) =
        st.functions.filter (fun f => f.name = n) := by
  induction args with
  | nil => exact fun st n h => rfl
  | cons a rest ih =>
    intro st n h
    cases ha : a.ann with
    | none =>
      have h2 := ih st n h
      simpa [visitArgAnns, List.foldl_cons, ha] using h2
    | some e =>
      have h2 : (visitArgAnns (visitExprS st e) rest).functions.filter
          (fun f => f.name = n) =
          st.functions.filter (fun f => f.name = n) :=
        (ih (visitExprS st e) n h).trans (visitExprS_nfilter st e n h)
      simpa [visitArgAnns, List.foldl_cons, ha] using h2

mutual
theorem visitStmt_nfilter (st : ExtState) (s : PyStmt) (n : String)
    (hstk : ¬ st.call_stack.getLast? = some n) (hd : n ∉ defNamesStmt s) :
    (visitStmt st s).functions.filter (fun f => f.name = n) =
      st.functions.filter (fun f => f.name = n) := by
  cases s with
  | funcDef name args defaults body decs rets ln el =>
    have hd2 : n ∉ name :: defNamesList body := hd
    have hname : ¬ name = n := fun he =>
      hd2 (List.mem_cons.mpr (Or.inl he.symm))
    have hbody : n ∉ defNamesList body := fun hm =>
      hd2 (List.mem_cons_of_mem _ hm)
    have hpush : ¬ (st.call_stack ++ [name]).getLast? = some n := by
      rw [List.getLast?_concat]
      intro he
      exact hname (Option.some.inj he)
    cases hcc : st.current_class with
    | none =>
      simp only [visitStmt, hcc]
      exact Eq.trans (visitExprOptS_nfilter _ rets n (by
          rw [visitStmtList_stack, visitExprListS_stack, visitArgAnns_stack]
          exact hpush))
        (Eq.trans (visitStmtList_nfilter _ body n (by
            rw [visitExprListS_stack, visitArgAnns_stack]
            exact hpush) hbody)
          (Eq.trans (visitExprListS_nfilter _ defaults n (by
              rw [visitArgAnns_stack]
              exact hpush))
            (Eq.trans (visitArgAnns_nfilter args _ n hpush)
              (filter_name_append_ne st.functions _ n hname))))
    | some c =>
      simp only [visitStmt, hcc]
      exact Eq.trans (visitExprOptS_nfilter _ rets n (by
          rw [visitStmtList_stack, visitExprListS_stack, visitArgAnns_stack]
          exact hpush))
        (Eq.trans (visitStmtList_nfilter _ body n (by
            rw [visitExprListS_stack, visitArgAnns_stack]
            exact hpush) hbody)
          (Eq.trans (visitExprListS_nfilter _ defaults n (by
              rw [visitArgAnns_stack]
              exact hpush))
            (visitArgAnns_nfilter args _ n hpush)))
  | classDef name bases body decs ln el =>
    have hbody : n ∉ defNamesList body := hd
    simp only [visitStmt]
    exact Eq.trans (visitStmtList_nfilter _ body n (by
        rw [visitExprListS_stack]
        exact hstk) hbody)
      (visitExprListS_nfilter _ bases n hstk)
  | assign targets value ln =>
    simp only [visitStmt]
    by_cases hs : st.scope_stack.length = 1
    · simp only [if_pos hs]
      exact Eq.trans (visitExprS_nfilter _ value n (by
          rw [visitExprListS_stack, assignTargets_stack]
          exact hstk))
        (Eq.trans (visitExprListS_nfilter _ targets n (by
            rw [assignTargets_stack]
            exact hstk))
          (by rw [(assignTargets_fc value ln targets st).1]))
    · simp only [if_neg hs]
      exact Eq.trans (visitExprS_nfilter _ value n hstk)
        (visitExprListS_nfilter st targets n hstk)
  | annAssign target ann value ln =>
    simp only [visitStmt]
    cases target with
    | name id =>
      by_cases hs : st.scope_stack.length = 1
      · simp only [if_pos hs]
        by_cases hc : isConstant id = true
        · simp only [if_pos hc]
          exact Eq.trans (visitExprOptS_nfilter _ value n hstk)
            (Eq.trans (visitExprS_nfilter _ ann n hstk)
              (visitExprS_nfilter _ (PyExpr.name id) n hstk))
        · simp only [if_neg hc]
          exact Eq.trans (visitExprOptS_nfilter _ value n hstk)
            (Eq.trans (visitExprS_nfilter _ ann n hstk)
              (visitExprS_nfilter _ (PyExpr.name id) n hstk))
      · simp only [if_neg hs]
        exact Eq.trans (visitExprOptS_nfilter _ value n hstk)
          (Eq.trans (visitExprS_nfilter _ ann n hstk)
            (visitExprS_nfilter st (PyExpr.name id) n hstk))
    | attr v a =>
      exact Eq.trans (visitExprOptS_nfilter _ value n hstk)
        (Eq.trans (visitExprS_nfilter _ ann n hstk)
          (visitExprS_nfilter st (PyExpr.attr v a) n hstk))
    | call f args l2 =>
      exact Eq.trans (visitExprOptS_nfilter _ value n hstk)
        (Eq.trans (visitExprS_nfilter _ ann n hstk)
          (visitExprS_nfilter st (PyExpr.call f args l2) n hstk))
    | const v =>
      exact Eq.trans (visitExprOptS_nfilter _ value n hstk)
        (Eq.trans (visitExprS_nfilter _ ann n hstk)
          (visitExprS_nfilter st (PyExpr.const v) n hstk))
  | exprStmt e =>
    show (visitExprS st e).functions.filter _ = _
    exact visitExprS_nfilter st e n hstk
  | ret e =>
    show (visitExprOptS st e).functions.filter _ = _
    exact visitExprOptS_nfilter st e n hstk
  | passStmt => rfl
  | importStmt names ln =>
    show (importEntries ln st names).functions.filter _ = _
    rw [(importEntries_fc ln names st).1]
  | importFrom moduleName level names ln =>
    show (importFromEntries moduleName level ln st names).functions.filter _
      = _
    rw [(importFromEntries_fc moduleName level ln names st).1]

theorem visitStmtList_nfilter (st : ExtState) (l : List PyStmt) (n : String)
    (hstk : ¬ st.call_stack.getLast? = some n) (hd : n ∉ defNamesList l) :
    (visitStmtList st l).functions.filter (fun f => f.name = n) =
      st.functions.filter (fun f => f.name = n) := by
  cases l with
  | nil => rfl
  | cons s rest =>
    have hd1 : n ∉ defNamesStmt s := fun hm =>
      hd (List.mem_append.mpr (Or.inl hm))
    have hd2 : n ∉ defNamesList rest := fun hm =>
      hd (List.mem_append.mpr (Or.inr hm))
    show (visitStmtList (visitStmt st s) rest).functions.filter _ = _
    exact Eq.trans (visitStmtList_nfilter _ rest n (by
        rw [visitStmt_stack]
        exact hstk) hd2)
      (visitStmt_nfilter st s n hstk hd1)
end

/-- Visiting a function definition — in any state: the new def name is
pushed on the call stack before the arguments, defaults, body and return
annotation are visited — leaves every top-level function entry unchanged
whose name is not among the def names occurring inside the statement.  In
particular a call inside a nested def is never attached to the enclosing
function. -/
theorem visitStmt_funcDef_nfilter (st : ExtState) (name : String)
    (args : List PyArg) (defaults : List PyExpr) (body : List PyStmt)
    (decs : List String) (rets : Option PyExpr) (ln : Nat) (el : Option Nat)
    (n : String)
    (hd : n ∉ defNamesStmt (.funcDef name args defaults body decs rets ln el)) :
    (visitStmt st
        (.funcDef name args defaults body decs rets ln el)).functions.filter
        (fun f => f.name = n) =
      st.functions.filter (fun f => f.name = n) := by
  have hd2 : n ∉ name :: defNamesList body := hd
  have hname : ¬ name = n := fun he =>
    hd2 (List.mem_cons.mpr (Or.inl he.symm))
  have hbody : n ∉ defNamesList body := fun hm =>
    hd2 (List.mem_cons_of_mem _ hm)
  have hpush : ¬ (st.call_stack ++ [name]).getLast? = some n := by
    rw [List.getLast?_concat]
    intro he
    exact hname (Option.some.inj he)
  cases hcc : st.current_class with
  | none =>
    simp only [visitStmt, hcc]
    exact Eq.trans (visitExprOptS_nfilter _ rets n (by
        rw [visitStmtList_stack, visitExprListS_stack, visitArgAnns_stack]
        exact hpush))
      (Eq.trans (visitStmtList_nfilter _ body n (by
          rw [visitExprListS_stack, visitArgAnns_stack]
          exact hpush) hbody)
        (Eq.trans (visitExprListS_nfilter _ defaults n (by
            rw [visitArgAnns_stack]
            exact hpush))
          (Eq.trans (visitArgAnns_nfilter args _ n hpush)
            (filter_name_append_ne st.functions _ n hname))))
  | some c =>
    simp only [visitStmt, hcc]
    exact Eq.trans (visitExprOptS_nfilter _ rets n (by
        rw [visitStmtList_stack, visitExprListS_stack, visitArgAnns_stack]
        exact hpush))
      (Eq.trans (visitStmtList_nfilter _ body n (by
          rw [visitExprListS_stack, visitArgAnns_stack]
          exact hpush) hbody)
        (Eq.trans (visitExprListS_nfilter _ defaults n (by
            rw [visitArgAnns_stack]
            exact hpush))
          (visitArgAnns_nfilter args _ n hpush)))

/-! ## The shape of the exports list (§ _extract_exports) -/

theorem exports_function_iff (fns : List FuncInfo) (cls : List ClassInfo)
    (vs ks : List VarInfo) (n : String) :
    (∃ e ∈ extractExports fns cls vs ks, e.name = n ∧ e.etype = "function") ↔
    (∃ f ∈ fns, f.name = n ∧ pyStartsWith f.name "_" = false) := by
  constructor
  · rintro ⟨e, he, hn, ht⟩
    simp only [extractExports, List.mem_append] at he
    rcases he with ((hef | hec) | hev) | hek
    · rcases List.mem_map.mp hef with ⟨f, hf, hgf⟩
      have hf2 := List.mem_filter.mp hf
      refine ⟨f, hf2.1, ?_, ?_⟩
      · rw [← hn, ← hgf]
      · simpa using hf2.2
    · rcases List.mem_map.mp hec with ⟨c, hc2, hgc⟩
      rw [← hgc] at ht
      simp at ht
    · rcases List.mem_map.mp hev with ⟨v, hv, hgv⟩
      rw [← hgv] at ht
      simp at ht
    · rcases List.mem_map.mp hek with ⟨v, hv, hgv⟩
      rw [← hgv] at ht
      simp at ht
  · rintro ⟨f, hf, hn, hns⟩
    refine ⟨ExportInfo.mk f.name "function" f.start_line, ?_, hn, rfl⟩
    simp only [extractExports, List.mem_append]
    left; left; left
    exact List.mem_map.mpr ⟨f, List.mem_filter.mpr ⟨hf, by simp [hns]⟩, rfl⟩

theorem exports_class_iff (fns : List FuncInfo) (cls : List ClassInfo)
    (vs ks : List VarInfo) (n : String) :
    (∃ e ∈ extractExports fns cls vs ks, e.name = n ∧ e.etype = "class") ↔
    (∃ c ∈ cls, c.name = n ∧ pyStartsWith c.name "_" = false) := by
  constructor
  · rintro ⟨e, he, hn, ht⟩
    simp only [extractExports, List.mem_append] at he
    rcases he with ((hef | hec) | hev) | hek
    · rcases List.mem_map.mp hef with ⟨f, hf, hgf⟩
      rw [← hgf] at ht
      simp at ht
    · rcases List.mem_map.mp hec with ⟨c, hc2, hgc⟩
      have hc3 := List.mem_filter.mp hc2
      refine ⟨c, hc3.1, ?_, ?_⟩
      · rw [← hn, ← hgc]
      · simpa using hc3.2
    · rcases List.mem_map.mp hev with ⟨v, hv, hgv⟩
      rw [← hgv] at ht
      simp at ht
    · rcases List.mem_map.mp hek with ⟨v, hv, hgv⟩
      rw [← hgv] at ht
      simp at ht
  · rintro ⟨c, hc2, hn, hns⟩
    refine ⟨ExportInfo.mk c.name "class" c.start_line, ?_, hn, rfl⟩
    simp only [extractExports, List.mem_append]
    left; left; right
    exact List.mem_map.mpr ⟨c, List.mem_filter.mpr ⟨hc2, by simp [hns]⟩, rfl⟩

theorem exports_variable_iff (fns : List FuncInfo) (cls : List ClassInfo)
    (vs ks : List VarInfo) (n : String) :
    (∃ e ∈ extractExports fns cls vs ks, e.name = n ∧ e.etype = "variable") ↔
    (∃ v ∈ vs, v.name = n ∧ v.is_exported = true) := by
  constructor
  · rintro ⟨e, he, hn, ht⟩
    simp only [extractExports, List.mem_append] at he
    rcases he with ((hef | hec) | hev) | hek
    · rcases List.mem_map.mp hef with ⟨f, hf, hgf⟩
      rw [← hgf] at ht
      simp at ht
    · rcases List.mem_map.mp hec with ⟨c, hc2, hgc⟩
      rw [← hgc] at ht
      simp at ht
    · rcases List.mem_map.mp hev with ⟨v, hv, hgv⟩
      have hv2 := List.mem_filter.mp hv
      refine ⟨v, hv2.1, ?_, hv2.2⟩
      rw [← hn, ← hgv]
    · rcases List.mem_map.mp hek with ⟨v, hv, hgv⟩
      rw [← hgv] at ht
      simp at ht
  · rintro ⟨v, hv, hn, hve⟩
    refine ⟨ExportInfo.mk v.name "variable" v.line, ?_, hn, rfl⟩
    simp only [extractExports, List.mem_append]
    left; right
    exact List.mem_map.mpr ⟨v, List.mem_filter.mpr ⟨hv, hve⟩, rfl⟩

theorem exports_constant_iff (fns : List FuncInfo) (cls : List ClassInfo)
    (vs ks : List VarInfo) (n : String) :
    (∃ e ∈ extractExports fns cls vs ks, e.name = n ∧ e.etype = "constant") ↔
    (∃ v ∈ ks, v.name = n ∧ v.is_exported = true) := by
  constructor
  · rintro ⟨e, he, hn, ht⟩
    simp only [extractExports, List.mem_append] at he
    rcases he with ((hef | hec) | hev) | hek
    · rcases List.mem_map.mp hef with ⟨f, hf, hgf⟩
      rw [← hgf] at ht
      simp at ht
    · rcases List.mem_map.mp hec with ⟨c, hc2, hgc⟩
      rw [← hgc] at ht
      simp at ht
    · rcases List.mem_map.mp hev with ⟨v, hv, hgv⟩
      rw [← hgv] at ht
      simp at ht
    · rcases List.mem_map.mp hek with ⟨v, hv, hgv⟩
      have hv2 := List.mem_filter.mp hv
      refine ⟨v, hv2.1, ?_, hv2.2⟩
      rw [← hn, ← hgv]
  · rintro ⟨v, hv, hn, hve⟩
    refine ⟨ExportInfo.mk v.name "constant" v.line, ?_, hn, rfl⟩
    simp only [extractExports, List.mem_append]
    right
    exact List.mem_map.mpr ⟨v, List.mem_filter.mpr ⟨hv, hve⟩, rfl⟩

/-- Unpacking of the first pass: every member of all_functions after the
first pass is the pass-one image of an input function or method. -/
theorem mem_cgAll1 {fns : List FuncInfo} {cls : List ClassInfo}
    {f2 : FuncInfo} (h : f2 ∈ cgAll1 fns cls) :
    ∃ g0, (g0 ∈ fns ++ (cls.map (fun c => c.methods)).flatten) ∧
      f2 = cgPass1 (cgNames fns cls) g0 := by
  rcases List.mem_append.mp h with h | h
  · rcases List.mem_map.mp h with ⟨g0, hg0, rfl⟩
    exact ⟨g0, List.mem_append.mpr (Or.inl hg0), rfl⟩
  · rcases List.mem_flatten.mp h with ⟨ms, hms, hfm⟩
    rcases List.mem_map.mp hms with ⟨c1, hc1, rfl⟩
    rcases List.mem_map.mp hc1 with ⟨c0, hc0, rfl⟩
    rcases List.mem_map.mp hfm with ⟨g0, hg0, rfl⟩
    refine ⟨g0, List.mem_append.mpr (Or.inr ?_), rfl⟩
    exact List.mem_flatten.mpr ⟨c0.methods, List.mem_map.mpr ⟨c0, hc0, rfl⟩, hg0⟩

/-- Unpacking of the second pass: a name gets into the called_by list for n
only through a pass-one record whose calls_functions contains n. -/
theorem mem_cgCalledBy {fns : List FuncInfo} {cls : List ClassInfo}
    {n nm : String} (h : nm ∈ cgCalledBy fns cls n) :
    ∃ f2 ∈ cgAll1 fns cls, nm = f2.name ∧ n ∈ f2.calls_functions := by
  rcases List.mem_flatten.mp h with ⟨s, hs, hnms⟩
  rcases List.mem_map.mp hs with ⟨f2, hf2, rfl⟩
  rcases List.mem_map.mp hnms with ⟨x, hx, hnmeq⟩
  have hx2 := List.mem_filter.mp hx
  have hxval : x = n := by simpa using hx2.2
  exact ⟨f2, hf2, hnmeq.symm, hxval ▸ hx2.1⟩

/-- Unpacking of calls_functions: each entry is the name of a recorded
call containing no dot and matching a known local name. -/
theorem mem_cgPass1_calls_functions {names : List String} {g0 : FuncInfo}
    {n : String} (h : n ∈ (cgPass1 names g0).calls_functions) :
    ∃ c0 ∈ g0.calls, c0.name.data.contains '.' = false ∧ c0.name = n := by
  rcases List.mem_map.mp h with ⟨c0, hc0, hc0name⟩
  have hc02 := List.mem_filter.mp hc0
  have hdot : c0.name.data.contains '.' = false := by
    have h2 := hc02.2
    rw [Bool.and_eq_true] at h2
    simpa using h2.1
  exact ⟨c0, hc02.1, hdot, hc0name⟩

/-- Soundness of the call-graph edges: every called_by entry of a function
or method t produced by _build_call_graph names some input function that
has a recorded call whose name contains no dot and equals t's name. -/
theorem buildCallGraph_calledBy_sound (fns : List FuncInfo)
    (cls : List ClassInfo) (t : FuncInfo)
    (ht : t ∈ (buildCallGraph fns cls).1 ∨
      ∃ c ∈ (buildCallGraph fns cls).2, t ∈ c.methods)
    (nm : String) (hnm : nm ∈ t.called_by) :
    ∃ f0, (f0 ∈ fns ++ (cls.map (fun c => c.methods)).flatten) ∧
      f0.name = nm ∧
      ∃ c0 ∈ f0.calls, c0.name.data.contains '.' = false ∧
        c0.name = t.name := by
  have hred : nm ∈ cgCalledBy fns cls t.name := by
    rcases ht with h | ⟨c, hc, hm⟩
    · rcases List.mem_map.mp h with ⟨f1, hf1, rfl⟩
      exact hnm
    · rcases List.mem_map.mp hc with ⟨c1, hc1, rfl⟩
      rcases List.mem_map.mp hm with ⟨f1, hf1, rfl⟩
      exact hnm
  obtain ⟨f2, hf2, hnmeq, hn⟩ := mem_cgCalledBy hred
  obtain ⟨g0, hg0mem, rfl⟩ := mem_cgAll1 hf2
  obtain ⟨c0, hc0, hdot, hc0name⟩ := mem_cgPass1_calls_functions hn
  exact ⟨g0, hg0mem, hnmeq.symm, c0, hc0, hdot, hc0name⟩

/-! ## Concrete scenario modules from the specification -/

/-- class C:\n  def m(self): self.helper()\n  def helper(self): pass -/
def mScenario : PyModule :=
  [.classDef "C" []
    [.funcDef "m" [⟨"self", none⟩] []
       [.exprStmt (.call (.attr (.name "self") "helper") [] 3)] [] none 2 (some 3),
     .funcDef "helper" [⟨"self", none⟩] [] [.passStmt] [] none 4 (some 5)]
    [] 1 (some 5)]

/-- def a(): b()\ndef b(): pass -/
def mAB : PyModule :=
  [.funcDef "a" [] [] [.exprStmt (.call (.name "b") [] 1)] [] none 1 (some 1),
   .funcDef "b" [] [] [.passStmt] [] none 2 (some 2)]

/-- def f(): x = 1 -/
def mFX : PyModule :=
  [.funcDef "f" [] [] [.assign [.name "x"] (.const (.intVal 1)) 2] [] none 1
    (some 2)]

/-- def outer(): a(); def inner(): b(); c() -/
def mNested : PyModule :=
  [.funcDef "outer" [] []
    [.exprStmt (.call (.name "a") [] 2),
     .funcDef "inner" [] [] [.exprStmt (.call (.name "b") [] 4)] [] none 3
       (some 4),
     .exprStmt (.call (.name "c") [] 5)]
    [] none 1 (some 5)]

/-- PUBLIC_X = 1 -/
def mConst : PyModule := [.assign [.name "PUBLIC_X"] (.const (.intVal 1)) 1]

/-- def _helper(): pass -/
def mHelper : PyModule := [.funcDef "_helper" [] [] [.passStmt] [] none 1
  (some 1)]

/-- def walk(): pass -/
def mPub : PyModule := [.funcDef "walk" [] [] [.passStmt] [] none 1 (some 1)]

/-! ## The claims -/

/-- Claim C1, counterexample: on the spec scenario (class C with method m
calling self.helper()), extraction yields Type C with the two methods, but
helper's called_by list is EMPTY — _build_call_graph skips every callee
name containing a dot, so no caller edge for m is recorded, contrary to the
claim. -/
theorem claim_C1_counterexample :
    (extractModule mScenario).types.map
      (fun c => c.methods.map (fun f => f.name)) = [["m", "helper"]] ∧
    ∀ c ∈ (extractModule mScenario).types, ∀ f ∈ c.methods,
      f.name = "helper" → f.called_by = [] := by
  decide

/-- Claim C1, amended: the Call Graph Builder records a caller-to-callee
edge only for a recorded Call whose name contains no scope separator and
matches a locally defined function/method name; a receiver.method call such
as self.helper() stays in the raw calls list (with call-type "method") but
produces no called_by entry.  On the scenario, Type C has the two methods,
m's raw calls hold self.helper at line 3 with type "method", and helper's
called_by is empty; on `def a(): b()` / `def b(): pass`, b's called_by is
["a"]; and in general every called_by entry of an output function or
method names an input function with a dot-free recorded call matching the
target's name. -/
theorem claim_C1 :
    ((extractModule mScenario).types.map
      (fun c => (c.name, c.methods.map (fun f => (f.name, f.calls, f.called_by)))) =
      [("C", [("m", [CallInfo.mk "self.helper" 3 "method"], []),
              ("helper", [], [])])] ∧
    (extractModule mAB).functions.map
      (fun f => (f.name, f.called_by, f.calls_functions)) =
      [("a", [], ["b"]), ("b", ["a"], [])]) ∧
    (∀ (fns : List FuncInfo) (cls : List ClassInfo) (t : FuncInfo),
      (t ∈ (buildCallGraph fns cls).1 ∨
        ∃ c ∈ (buildCallGraph fns cls).2, t ∈ c.methods) →
      ∀ nm ∈ t.called_by,
        ∃ f0, (f0 ∈ fns ++ (cls.map (fun c => c.methods)).flatten) ∧
          f0.name = nm ∧
          ∃ c0 ∈ f0.calls, c0.name.data.contains '.' = false ∧
            c0.name = t.name) :=
  ⟨by decide, buildCallGraph_calledBy_sound⟩

/-- The functions extracted from mAB, before the call-graph pass. -/
def fnsAB : List FuncInfo := (visitStmtList initState mAB).functions

/-- The classes extracted from mAB (there are none). -/
def clsAB : List ClassInfo := (visitStmtList initState mAB).classes

/-- The record of b after the call-graph pass on mAB. -/
def tB : FuncInfo :=
  { name := "b", parameters := [], returns := [{ name := "None", kind := "builtin" }],
    calls := [], called_by := ["a"], calls_functions := [],
    start_line := 2, end_line := 2, decorators := [], is_async := false,
    docstring := "", is_method := false, class_name := none }

/-- Witness for C1 at mAB: b's called_by entry "a" comes from a's dot-free
recorded call of b. -/
theorem claim_C1_witness :
    (tB ∈ (buildCallGraph fnsAB clsAB).1) ∧
    "a" ∈ tB.called_by ∧
    ∃ f0, (f0 ∈ fnsAB ++ (clsAB.map (fun c => c.methods)).flatten) ∧
      f0.name = "a" ∧
      ∃ c0 ∈ f0.calls, c0.name.data.contains '.' = false ∧
        c0.name = tB.name :=
  ⟨by decide, by decide,
   claim_C1.2 fnsAB clsAB tB (Or.inl (by decide)) "a" (by decide)⟩

/-- Claim C2 (code bug): for the module `def f(): x = 1`, the assignment
inside the function body IS recorded as a top-level variable — the visitor
never pushes a scope frame for function bodies, so the
`len(scope_stack) == 1` gate that the code's own "# Module level" comment
documents lets function-local assignments through. -/
theorem claim_C2_bug :
    (extractModule mFX).vars.map (fun v => v.name) = ["x"] ∧
    (∃ e ∈ (extractModule mFX).exports, e.name = "x" ∧ e.etype = "variable") := by
  decide

/-- Claim C3: extract always produces either all data with an empty error
list, or all collections empty with exactly one error entry; no record ever
mixes a non-empty error list with non-empty data. -/
theorem claim_C3 (path : String) (parsed : Except String PyModule) :
    (extract path parsed).errors = [] ∨
    ((extract path parsed).functions = [] ∧ (extract path parsed).types = [] ∧
     (extract path parsed).vars = [] ∧ (extract path parsed).constants = [] ∧
     (extract path parsed).imports = [] ∧ (extract path parsed).exports = [] ∧
     (extract path parsed).errors.length = 1) := by
  cases parsed with
  | ok m => exact Or.inl rfl
  | error msg => exact Or.inr ⟨rfl, rfl, rfl, rfl, rfl, rfl, rfl⟩

/-- Claim C4, counterexample: the canonical string normalize("Any") =
"interface{}" is not a fixed point — the prefix fallback maps it through
the "int" rule, so normalize is not idempotent on its image. -/
theorem claim_C4_counterexample :
    normalizeType (normalizeType "Any") ≠ normalizeType "Any" := by
  decide

/-- Claim C4, amended: idempotence fails in general on canonical outputs
(normalize "interface\x7b\x7d" = "int" by the prefix fallback, and
map[...]-shaped outputs re-enter the generic parser), but it holds on the
scalar canonical outputs of the table: int, float64, string, bool,
complex128, nil, []byte, []int, func() and reflect.Type. -/
theorem claim_C4 :
    normalizeType "Any" = "interface\x7b\x7d" ∧
    normalizeType "interface\x7b\x7d" = "int" ∧
    normalizeType "map[string]interface\x7b\x7d" = "[]interface\x7b\x7d" ∧
    normalizeType "int" = "int" ∧ normalizeType "float64" = "float64" ∧
    normalizeType "string" = "string" ∧ normalizeType "bool" = "bool" ∧
    normalizeType "complex128" = "complex128" ∧ normalizeType "nil" = "nil" ∧
    normalizeType "[]byte" = "[]byte" ∧ normalizeType "[]int" = "[]int" ∧
    normalizeType "func()" = "func()" ∧
    normalizeType "reflect.Type" = "reflect.Type" := by
  decide

/-- Claim C5, counterexample: `Listener` is bracket-free, unquoted and not
an exact key of the lookup table, yet normalize maps it to
"[]interface\x7b\x7d" through the `List` prefix-matching fallback instead
of passing it through unchanged. -/
theorem claim_C5_counterexample :
    normalizeType "Listener" = "[]interface\x7b\x7d" ∧
    normalizeType "Listener" ≠ "Listener" := by
  decide

/-- Claim C5, amended: a bracket-free, unquoted type string that is not a
None-spelling, not an exact key of the table, AND has no table key as a
prefix is returned trimmed-but-unchanged; a user type such as `Listener`
whose name starts with a built-in's name is instead captured by the
backwards-compatibility prefix fallback and mapped to that built-in's
target type. -/
theorem claim_C5 :
    (∀ l : List Char,
      ¬ (l = "None".data ∨ l = "NoneType".data) →
      pyStrip l ≠ [] →
      lookupMapL (pyStrip l) = none →
      ¬ ('[' ∈ pyStrip l ∧ ']' ∈ pyStrip l) →
      ¬ ((pyStrip l).head? = some '"' ∧ (pyStrip l).getLast? = some '"') →
      ¬ ((pyStrip l).head? = some '\'' ∧ (pyStrip l).getLast? = some '\'') →
      findPrefixMapL (pyStrip l) = none →
      normalizeTypeL l = pyStrip l) ∧
    normalizeType "Listener" = "[]interface\x7b\x7d" :=
  ⟨fun l h1 h2 h3 h4 h5 h6 h7 =>
    normalizeTypeL_fallthrough l h1 h2 h3 h4 h5 h6 h7, by decide⟩

/-- Witness for C5 at the concrete user type MyClass: all hypotheses hold
and normalization returns the trimmed string unchanged. -/
theorem claim_C5_witness :
    (¬ ("MyClass".data = "None".data ∨ "MyClass".data = "NoneType".data)) ∧
    pyStrip "MyClass".data ≠ [] ∧
    lookupMapL (pyStrip "MyClass".data) = none ∧
    findPrefixMapL (pyStrip "MyClass".data) = none ∧
    normalizeTypeL "MyClass".data = pyStrip "MyClass".data :=
  ⟨by decide, by decide, by decide, by decide,
   claim_C5.1 "MyClass".data (by decide) (by decide) (by decide) (by decide)
     (by decide) (by decide) (by decide)⟩

set_option maxHeartbeats 1600000 in
/-- Claim C6, counterexample: in
`def outer(): a(); def inner(): b(); c()`, the call b() occurs inside a
function definition nested textually within outer's body, but outer's calls
list is [a, c] — the nested call is attached to inner only, so outer's
calls list does NOT contain every call syntactically inside its body. -/
theorem claim_C6_counterexample :
    (extractModule mNested).functions.map
      (fun f => (f.name, f.calls.map (fun c => c.name))) =
      [("outer", ["a", "c"]), ("inner", ["b"])] ∧
    ∀ f ∈ (extractModule mNested).functions, f.name = "outer" →
      ∀ c ∈ f.calls, c.name ≠ "b" := by
  decide

set_option maxHeartbeats 1600000 in
/-- Claim C6, amended: a Function's calls list contains the calls
syntactically inside its own body in source order, EXCLUDING calls inside
function definitions nested textually within it — each call is attached to
the def name on top of the visitor's call stack, the innermost enclosing
function definition.  Universally: visiting a function-definition statement
leaves every top-level function entry unchanged whose name is not among the
def names occurring inside that statement, so a call inside a nested def is
never added to an enclosing function's calls list.  Concretely, in
`def outer(): a(); def inner(): b(); c()`, outer's calls are a (line 2) and
c (line 5), and inner's are b (line 4). -/
theorem claim_C6 :
    ((extractModule mNested).functions.map
      (fun f => (f.name, f.calls.map (fun c => (c.name, c.line, c.ctype)))) =
      [("outer", [("a", 2, "function"), ("c", 5, "function")]),
       ("inner", [("b", 4, "function")])]) ∧
    (∀ (st : ExtState) (name : String) (args : List PyArg)
      (defaults : List PyExpr) (body : List PyStmt) (decs : List String)
      (rets : Option PyExpr) (ln : Nat) (el : Option Nat) (n : String),
      n ∉ defNamesStmt (.funcDef name args defaults body decs rets ln el) →
      (visitStmt st
          (.funcDef name args defaults body decs rets ln el)).functions.filter
          (fun f => f.name = n) =
        st.functions.filter (fun f => f.name = n)) :=
  ⟨by decide, fun st name args defaults body decs rets ln el n hd =>
    visitStmt_funcDef_nfilter st name args defaults body decs rets ln el n hd⟩

set_option maxHeartbeats 1600000 in
/-- Witness for C6 at a mid-traversal state: with the top-level function
outer already recorded and the call stack inside outer, visiting the nested
definition `def inner(): b()` leaves the outer entry — its calls included —
untouched: the nested call b is not attached to outer. -/
theorem claim_C6_witness :
    ("outer" ∉ defNamesStmt (.funcDef "inner" [] []
      [.exprStmt (.call (.name "b") [] 4)] [] none 3 (some 4))) ∧
    (visitStmt
        { initState with
          functions := [extractFunction false "outer" [] [] [] [] none 1
            (some 5)],
          call_stack := ["outer"] }
        (.funcDef "inner" [] [] [.exprStmt (.call (.name "b") [] 4)] [] none 3
          (some 4))).functions.filter (fun f => f.name = "outer") =
      ({ initState with
         functions := [extractFunction false "outer" [] [] [] [] none 1
           (some 5)],
         call_stack := ["outer"] } : ExtState).functions.filter
        (fun f => f.name = "outer") :=
  ⟨by decide,
   claim_C6.2
     { initState with
       functions := [extractFunction false "outer" [] [] [] [] none 1
         (some 5)],
       call_stack := ["outer"] }
     "inner" [] [] [.exprStmt (.call (.name "b") [] 4)] [] none 3 (some 4)
     "outer" (by decide)⟩

/-- Claim C7, counterexample: the quoted generic forward reference
"List[int]" (with the quotes in the string) is returned unchanged, while
the unquoted List[int] normalizes to []int — the bracket rule fires before
quote stripping, so normalize(quoted) differs from normalize(unquoted). -/
theorem claim_C7_counterexample :
    normalizeType "\"List[int]\"" = "\"List[int]\"" ∧
    normalizeType "List[int]" = "[]int" ∧
    normalizeType "\"List[int]\"" ≠ normalizeType "List[int]" := by
  decide

/-- Claim C7, amended: quote stripping happens only after the exact-match
and generic-type rules; for a double-quoted string whose body does not
contain both brackets (so the generic rule cannot fire), normalization of
the quoted string equals normalization of the unquoted body, while quoted
generics are returned unchanged. -/
theorem claim_C7 :
    (∀ l : List Char, ¬ ('[' ∈ l ∧ ']' ∈ l) →
      normalizeTypeL ('"' :: (l ++ ['"'])) = normalizeTypeL l) ∧
    normalizeType "\"MyClass\"" = normalizeType "MyClass" :=
  ⟨normalizeTypeL_quoted, by decide⟩

/-- Witness for C7 at the concrete forward reference "MyCls". -/
theorem claim_C7_witness :
    (¬ ('[' ∈ "MyCls".data ∧ ']' ∈ "MyCls".data)) ∧
    normalizeTypeL ('"' :: ("MyCls".data ++ ['"'])) =
      normalizeTypeL "MyCls".data :=
  ⟨by decide, claim_C7.1 "MyCls".data (by decide)⟩

/-- Claim C8: splitting the parameter list of Mapping[str, List[int]]
yields exactly the two top-level parameters str and List[int]; in general,
the number of returned parameters is bracketed between the number of
depth-zero commas and that number plus one, so a comma is a parameter
boundary exactly when it occurs at bracket depth zero. -/
theorem claim_C8 :
    parseTypeParametersL "str, List[int]".data =
      ["str".data, "List[int]".data] ∧
    (∀ s : List Char, countD0 s 0 ≤ (parseTypeParametersL s).length ∧
      (parseTypeParametersL s).length ≤ countD0 s 0 + 1) := by
  constructor
  · decide
  · intro s
    exact parseParamsAux_length_bounds s [] 0

/-- Claim C9: for every extracted top-level function, class, variable and
constant, an export entry of the matching kind exists for its name iff the
name does not start with an underscore; PUBLIC_X is classified as a
constant and exported with kind "constant"; _helper never appears in the
exports list. -/
theorem claim_C9 (m : PyModule) :
    (∀ n : String, (∃ f ∈ (extractModule m).functions, f.name = n) →
      ((∃ e ∈ (extractModule m).exports, e.name = n ∧ e.etype = "function") ↔
        pyStartsWith n "_" = false)) ∧
    (∀ n : String, (∃ c ∈ (extractModule m).types, c.name = n) →
      ((∃ e ∈ (extractModule m).exports, e.name = n ∧ e.etype = "class") ↔
        pyStartsWith n "_" = false)) ∧
    (∀ n : String, (∃ v ∈ (extractModule m).vars, v.name = n) →
      ((∃ e ∈ (extractModule m).exports, e.name = n ∧ e.etype = "variable") ↔
        pyStartsWith n "_" = false)) ∧
    (∀ n : String, (∃ v ∈ (extractModule m).constants, v.name = n) →
      ((∃ e ∈ (extractModule m).exports, e.name = n ∧ e.etype = "constant") ↔
        pyStartsWith n "_" = false)) ∧
    (extractModule mConst).constants.map (fun v => v.name) = ["PUBLIC_X"] ∧
    (∃ e ∈ (extractModule mConst).exports, e.name = "PUBLIC_X" ∧
      e.etype = "constant") ∧
    (∀ e ∈ (extractModule mHelper).exports, e.name ≠ "_helper") := by
  have hvOK := visitStmtList_varsOK initState m varsOK_init
  refine ⟨?_, ?_, ?_, ?_, by decide, by decide, by decide⟩
  · intro n hex
    constructor
    · rintro ⟨e, he, hn, ht⟩
      obtain ⟨f, hf, hfn, hfs⟩ := (exports_function_iff _ _ _ _ n).mp
        ⟨e, he, hn, ht⟩
      rw [← hfn]
      exact hfs
    · intro hns
      obtain ⟨f, hf, hfn⟩ := hex
      exact (exports_function_iff _ _ _ _ n).mpr
        ⟨f, hf, hfn, by rw [hfn]; exact hns⟩
  · intro n hex
    constructor
    · rintro ⟨e, he, hn, ht⟩
      obtain ⟨c, hc2, hcn, hcs⟩ := (exports_class_iff _ _ _ _ n).mp
        ⟨e, he, hn, ht⟩
      rw [← hcn]
      exact hcs
    · intro hns
      obtain ⟨c, hc2, hcn⟩ := hex
      exact (exports_class_iff _ _ _ _ n).mpr
        ⟨c, hc2, hcn, by rw [hcn]; exact hns⟩
  · intro n hex
    constructor
    · rintro ⟨e, he, hn, ht⟩
      obtain ⟨v, hv, hvn, hve⟩ := (exports_variable_iff _ _ _ _ n).mp
        ⟨e, he, hn, ht⟩
      have hflag := hvOK.1 v hv
      rw [hve] at hflag
      rw [← hvn]
      simpa using hflag.symm
    · intro hns
      obtain ⟨v, hv, hvn⟩ := hex
      refine (exports_variable_iff _ _ _ _ n).mpr ⟨v, hv, hvn, ?_⟩
      have hflag := hvOK.1 v hv
      rw [hvn] at hflag
      rw [hflag, hns]
      rfl
  · intro n hex
    constructor
    · rintro ⟨e, he, hn, ht⟩
      obtain ⟨v, hv, hvn, hve⟩ := (exports_constant_iff _ _ _ _ n).mp
        ⟨e, he, hn, ht⟩
      have hflag := hvOK.2 v hv
      rw [hve] at hflag
      rw [← hvn]
      simpa using hflag.symm
    · intro hns
      obtain ⟨v, hv, hvn⟩ := hex
      refine (exports_constant_iff _ _ _ _ n).mpr ⟨v, hv, hvn, ?_⟩
      have hflag := hvOK.2 v hv
      rw [hvn] at hflag
      rw [hflag, hns]
      rfl

/-- Witness for C9 at a concrete public function. -/
theorem claim_C9_witness :
    (∃ f ∈ (extractModule mPub).functions, f.name = "walk") ∧
    ((∃ e ∈ (extractModule mPub).exports, e.name = "walk" ∧
      e.etype = "function") ↔ (pyStartsWith "walk" "_" = false)) :=
  ⟨by decide, (claim_C9 mPub).1 "walk" (by decide)⟩

/-- Claim C10: a function definition nested inside another function's body,
outside any class, is itself appended to the top-level functions list. -/
theorem claim_C10 (st : ExtState) (hcc : st.current_class = none)
    (oname : String) (oargs : List PyArg) (odefs : List PyExpr)
    (obody : List PyStmt) (odecs : List String) (orets : Option PyExpr)
    (oline : Nat) (oel : Option Nat)
    (iname : String) (iargs : List PyArg) (idefs : List PyExpr)
    (ibody : List PyStmt) (idecs : List String) (irets : Option PyExpr)
    (iline : Nat) (iel : Option Nat)
    (hin : PyStmt.funcDef iname iargs idefs ibody idecs irets iline iel ∈ obody) :
    iname ∈ ((visitStmt st
      (.funcDef oname oargs odefs obody odecs orets oline oel)).functions.map
        (fun f => f.name)) := by
  simp only [visitStmt, hcc]
  apply mem_of_frameS (frameS_trans (visitExprOptS_frame _ orets)
    (frameS_cs_update _ _))
  apply visitStmtList_funcDef_mem iname iargs idefs ibody idecs irets iline iel
    obody _ ?_ hin
  exact cc_none_of_frameS (visitExprListS_frame _ odefs)
    (cc_none_of_frameS (visitArgAnns_frame oargs _) rfl)

/-- Witness for C10 at the nested-function module mNested: the inner
definition's name ends up in the top-level functions list. -/
theorem claim_C10_witness :
    "inner" ∈ ((visitStmt initState (.funcDef "outer" [] []
      [.exprStmt (.call (.name "a") [] 2),
       .funcDef "inner" [] [] [.exprStmt (.call (.name "b") [] 4)] [] none 3
         (some 4),
       .exprStmt (.call (.name "c") [] 5)] [] none 1
      (some 5))).functions.map (fun f => f.name)) :=
  claim_C10 initState rfl "outer" [] []
    [.exprStmt (.call (.name "a") [] 2),
     .funcDef "inner" [] [] [.exprStmt (.call (.name "b") [] 4)] [] none 3
       (some 4),
     .exprStmt (.call (.name "c") [] 5)] [] none 1 (some 5)
    "inner" [] [] [.exprStmt (.call (.name "b") [] 4)] [] none 3 (some 4)
    (List.mem_cons_of_mem _ (List.mem_cons_self _ _))

end PyExtract

